import Mathlib

/-!
# Verification of the clipboard-history store (`main.py`)

Shallow embedding, in Lean 4, of the retention & retrieval core of the
repository: content-addressed deduplicated insert, FIFO pruning, per-app and
per-tag capped eviction, tiered database-size eviction, the hash embedder,
brute-force cosine KNN, the related-clips query, typed settings writes, and
tag assignment.

Modelling conventions:
* SQLite tables are Lean lists kept in rowid order; `DELETE ... WHERE id = ?`
  is `List.filter`; `ORDER BY` is a stable structural sort (SQLite returns
  rows in some deterministic engine order; the relative order of ties is
  never observed by the claims under proof).
* `created_at` ISO-8601 strings are modelled as naturals (the ISO encoding
  of UTC instants is order-isomorphic to the time line).
* Python floats are idealised as exact rationals (for dot products, which
  are ring operations) and reals (for the square-root normalisation).
* External library functions that the core only calls (`hashlib.sha256`,
  `json.loads`, `json.dumps`, and Python's process-salted builtin `hash`)
  are parameters of the embedded functions.
-/

namespace MFM

/-! ## Python string helpers -/

/-- Characters stripped by Python's `str.strip()` (ASCII whitespace). -/
def pyIsSpace (c : Char) : Bool :=
  c == ' ' || c == '\t' || c == '\n' || c == '\r' || c == '\x0b' || c == '\x0c'

/-- Python `str.strip()`: remove leading and trailing whitespace. -/
def pyStrip (s : String) : String :=
  String.mk (((s.data.dropWhile pyIsSpace).reverse.dropWhile pyIsSpace).reverse)

/-- ASCII lower-casing of one character, as done by `str.lower()` and SQLite
`LOWER` on the ASCII app and tag names the claims concern. -/
def pyLowerChar (c : Char) : Char :=
  if 'A' ≤ c ∧ c ≤ 'Z' then Char.ofNat (c.toNat + 32) else c

/-- Python `str.lower()`. -/
def pyLower (s : String) : String :=
  String.mk (s.data.map pyLowerChar)

/-! ## A stable sort

SQL `ORDER BY` and Python's `list.sort` are modelled by insertion sort:
a stable sort for a total preorder is extensionally unique, so this is
the same function as SQLite's and Timsort's on every input where ties are
observable. -/

/-- Insert `a` before the first element `b` with `le a b`. -/
def insertSorted (le : α → α → Bool) (a : α) : List α → List α
  | [] => [a]
  | b :: bs => if le a b then a :: b :: bs else b :: insertSorted le a bs

/-- Stable insertion sort. -/
def pySort (le : α → α → Bool) (l : List α) : List α :=
  l.foldr (insertSorted le) []

/-! ## Data model

`clips` table rows.  Fields not read by any operation under proof
(`window_title`, `title`, `file_path`, `lang`) are omitted from the record;
`insert_clip` stores them unchanged and nothing else touches them. -/

structure Clip where
  id : Nat
  createdAt : Nat
  sourceApp : String
  content : String
  hash : String
  pinned : Bool
deriving Repr, DecidableEq

/-- `SELECT 1 FROM clips WHERE hash = ? LIMIT 1` (`clip_exists`). -/
def clip_exists (clips : List Clip) (digest : String) : Bool :=
  clips.any (fun c => c.hash == digest)

/-- SQLite `lastrowid` for an `INTEGER PRIMARY KEY AUTOINCREMENT` table:
one more than the largest id ever used (ids are never reused). -/
def nextId (clips : List Clip) : Nat :=
  (clips.map Clip.id).foldr max 0 + 1

/-- `insert_clip`: trim, silent no-op on empty, dedup by content hash,
else insert a fresh unpinned row.  `sha256` stands for `hashlib.sha256`,
`now` for `datetime.now(timezone.utc)`; `digestArg` models the optional
`digest` argument (Python `digest or hashlib.sha256(...)` computes the hash
whenever the argument is `None` or the empty string).
Returns the Python return value together with the post-state. -/
def insert_clip (sha256 : String → String) (now : Nat) (clips : List Clip)
    (content app : String) (digestArg : Option String) :
    Option Nat × List Clip :=
  let clean := pyStrip content
  if clean = "" then (none, clips)
  else
    let digest :=
      match digestArg with
      | some d => if d = "" then sha256 clean else d
      | none => sha256 clean
    if clip_exists clips digest then (none, clips)
    else
      let cid := nextId clips
      (some cid, clips ++ [⟨cid, now, app, clean, digest, false⟩])

/-! ## Retention / eviction -/

/-- Rows ordered by `id DESC` (primary-key order, ties impossible). -/
def byIdDesc (clips : List Clip) : List Clip :=
  pySort (fun a b => decide (b.id ≤ a.id)) clips

/-- `prune(cap)`: keep the `cap` rows selected by
`SELECT id FROM clips ORDER BY id DESC LIMIT cap`, delete the rest, return
the delete rowcount together with the post-state. -/
def prune (clips : List Clip) (cap : Int) : Nat × List Clip :=
  if cap ≤ 0 then (0, clips)
  else
    let keep := ((byIdDesc clips).take cap.toNat).map Clip.id
    let remaining := clips.filter (fun c => keep.contains c.id)
    (clips.length - remaining.length, remaining)

/-- Rows of one app, `WHERE LOWER(source_app)=LOWER(?) ORDER BY created_at
ASC` (`evict_app_cap`'s candidate query). -/
def appRows (clips : List Clip) (app : String) : List Clip :=
  pySort (fun a b => decide (a.createdAt ≤ b.createdAt))
    (clips.filter (fun c => pyLower c.sourceApp == pyLower app))

/-- The two-phase victim list shared by `evict_app_cap` and `evict_tag_cap`:
walk `rows` (oldest first) deleting unpinned rows until `over` are gone;
if the unpinned supply ran out, delete the oldest pinned rows to cover the
remainder. -/
def twoPhaseVictims (rows : List Clip) (over : Nat) : List Clip :=
  let unp := rows.filter (fun c => !c.pinned)
  let pin := rows.filter (fun c => c.pinned)
  unp.take over ++ pin.take (over - unp.length)

/-- `evict_app_cap(app, cap)`: enforce the per-app cap, preferring to delete
unpinned oldest rows first.  Returns the evicted count and the post-state. -/
def evict_app_cap (clips : List Clip) (app : String) (cap : Int) :
    Nat × List Clip :=
  if cap ≤ 0 ∨ app = "" then (0, clips)
  else
    let rows := appRows clips app
    if rows.length ≤ cap.toNat then (0, clips)
    else
      let victims := twoPhaseVictims rows (rows.length - cap.toNat)
      let vids := victims.map Clip.id
      (victims.length, clips.filter (fun c => !vids.contains c.id))

/-- `get_evict_mode`: normalise the stored `evict_mode` setting, falling
back to `DEFAULT_EVICT_MODE = "fifo"` for anything else. -/
def get_evict_mode (raw : String) : String :=
  let mode := pyLower (pyStrip raw)
  if mode = "fifo" ∨ mode = "tiered" then mode else "fifo"

/-- All rows ordered by `created_at ASC` (`evict_if_needed`'s queries). -/
def byCreatedAsc (clips : List Clip) : List Clip :=
  pySort (fun a b => decide (a.createdAt ≤ b.createdAt)) clips

/-- `evict_if_needed(max_db_mb)`: if the on-disk size (MB, supplied as the
exact rational `sizeMb` since the file size is operating-system state)
exceeds the cap, delete a batch of `max(1, int(total * 0.05))` oldest rows —
in `tiered` mode unpinned-oldest first, spilling into the remaining (all
pinned) rows only when fewer than `batch` unpinned rows existed; in `fifo`
mode oldest regardless of pin.  Returns rows removed and the post-state. -/
def evict_if_needed (sizeMb : ℚ) (modeRaw : String) (clips : List Clip)
    (maxDbMb : Int) : Nat × List Clip :=
  if maxDbMb ≤ 0 then (0, clips)
  else if sizeMb > (maxDbMb : ℚ) then
    let total := clips.length
    if total > 0 then
      let batch := max 1 (total * 5 / 100)
      if get_evict_mode modeRaw = "tiered" then
        let vict1 := (byCreatedAsc (clips.filter (fun c => !c.pinned))).take batch
        let ids1 := vict1.map Clip.id
        let state1 := clips.filter (fun c => !ids1.contains c.id)
        let evicted := vict1.length
        if evicted < batch then
          let vict2 := (byCreatedAsc state1).take (batch - evicted)
          let ids2 := vict2.map Clip.id
          (evicted + vict2.length, state1.filter (fun c => !ids2.contains c.id))
        else (evicted, state1)
      else
        let vict := (byCreatedAsc clips).take batch
        let ids := vict.map Clip.id
        (vict.length, clips.filter (fun c => !ids.contains c.id))
    else (0, clips)
  else (0, clips)

/-! ## Embedding engine -/

/-- A character matched by the tokenizer regex `[A-Za-z0-9_]`. -/
def tokenChar (c : Char) : Bool :=
  ('A' ≤ c && c ≤ 'Z') || ('a' ≤ c && c ≤ 'z') || ('0' ≤ c && c ≤ '9') || c == '_'

/-- Maximal runs of `tokenChar` characters (fuelled structural recursion;
each step consumes at least one character, so `fuel = length` suffices):
the semantics of `re.findall(r"[A-Za-z0-9_]+", ·)`. -/
def tokenRunsF : Nat → List Char → List (List Char)
  | 0, _ => []
  | _, [] => []
  | fuel + 1, c :: cs =>
    if tokenChar c then
      (c :: cs.takeWhile tokenChar) :: tokenRunsF fuel (cs.dropWhile tokenChar)
    else
      tokenRunsF fuel cs

/-- Maximal runs of `tokenChar` characters, in order. -/
def tokenRuns (l : List Char) : List (List Char) :=
  tokenRunsF l.length l

/-- `tokenize`: lowercase, then find the alphanumeric-or-underscore runs. -/
def tokenize (text : String) : List String :=
  (tokenRuns (pyLower text).data).map String.mk

/-- `EMBED_DIM = 128`. -/
def EMBED_DIM : Nat := 128

/-- `vec[idx] += 1.0` on a list-modelled accumulator. -/
def bump (v : List ℚ) (idx : Nat) : List ℚ :=
  v.set idx (v.getD idx 0 + 1)

/-- The token-count accumulator built by `hash_embed`'s loop.  `pyHash`
stands for Python's builtin `hash` on strings, which is salted per process
(`PYTHONHASHSEED`); `Int.emod` matches Python's nonnegative `%`. -/
def hashAccum (pyHash : String → Int) (dim : Nat) (tokens : List String) :
    List ℚ :=
  tokens.foldl (fun v tok => bump v ((pyHash tok % (dim : Int)).toNat))
    (List.replicate dim 0)

/-- Sum of squares of a vector, `sum(v * v for v in vec)`. -/
def sumSq (v : List ℝ) : ℝ :=
  (v.map (fun x => x * x)).sum

/-- `hash_embed(text)`: zero vector when no token matched, otherwise the
L2-normalised bucket-count vector (the `norm > 0` guard is Python's). -/
noncomputable def hash_embed (pyHash : String → Int) (text : String) :
    List ℝ :=
  let tokens := tokenize text
  if tokens = [] then List.replicate EMBED_DIM (0 : ℝ)
  else
    let vec : List ℝ := (hashAccum pyHash EMBED_DIM tokens).map (fun q : ℚ => (q : ℝ))
    let norm := Real.sqrt (sumSq vec)
    if 0 < norm then vec.map (fun v => v / norm) else vec

/-! ## Similarity search -/

/-- `cosine(a, b)`: dot product over `zip` (truncating, like Python). -/
def cosine (a b : List ℚ) : ℚ :=
  (List.zipWith (fun x y => x * y) a b).sum

/-- The unsorted score list `sims` built by `knn`'s loop, in input order. -/
def knnSims (query : List ℚ) (ids : List Nat) (vecs : List (List ℚ)) :
    List (ℚ × Nat) :=
  (List.zip ids vecs).map (fun p => (cosine query p.2, p.1))

/-- `sims.sort(key=lambda x: x[0], reverse=True)`: stable descending sort by
score (Python's sort is stable and `reverse=True` keeps ties in order). -/
def knnSorted (query : List ℚ) (ids : List Nat) (vecs : List (List ℚ)) :
    List (ℚ × Nat) :=
  pySort (fun a b => decide (b.1 ≤ a.1)) (knnSims query ids vecs)

/-- `knn(query, ids, vecs, limit)`: top `limit` of the sorted score list. -/
def knn (query : List ℚ) (ids : List Nat) (vecs : List (List ℚ))
    (limit : Nat) : List (ℚ × Nat) :=
  (knnSorted query ids vecs).take limit

/-- The ranked result list of `cmd_related`: `knn` seeded with the clip's
own stored vector at `limit + 1`, the self id filtered out, then cut to
`limit`. -/
def relatedSims (qvec : List ℚ) (ids : List Nat) (vecs : List (List ℚ))
    (selfId : Nat) (limit : Nat) : List (ℚ × Nat) :=
  ((knn qvec ids vecs (limit + 1)).filter (fun p => p.2 ≠ selfId)).take limit

/-! ## Typed settings -/

/-- A JSON value, the possible results of `json.loads`. -/
inductive JVal where
  | null : JVal
  | bool (b : Bool) : JVal
  | num (q : ℚ) : JVal
  | str (s : String) : JVal
  | arr (items : List JVal) : JVal
  | obj (fields : List (String × JVal)) : JVal

/-- Whether `isinstance(data, (list, dict))` holds of a parsed JSON value. -/
def JVal.isListOrDict : JVal → Bool
  | .arr _ => true
  | .obj _ => true
  | _ => false

/-- A Python value handed to `set_setting_typed`; its CLI caller passes the
raw argument string, and the `isinstance(value, bool)` branch admits bools. -/
inductive PyVal where
  | bool (b : Bool) : PyVal
  | str (s : String) : PyVal
deriving Repr, DecidableEq

/-- Python `str(value)` on the values above. -/
def PyVal.toStr : PyVal → String
  | .bool b => if b then "True" else "False"
  | .str s => s

/-- The value kind of a `SETTINGS_SPEC` entry ("str" | "bool" | "json"). -/
inductive Kind where
  | str : Kind
  | bool : Kind
  | json : Kind
deriving Repr, DecidableEq

/-- `SETTINGS_SPEC`: the typed-settings schema (kinds only; the defaults are
read paths, unused by `set_setting_typed`). -/
def settingsSpec : String → Option Kind
  | "account_email" => some .str
  | "account_avatar" => some .str
  | "account_linked" => some .json
  | "account_orgs" => some .json
  | "account_upgrade_url" => some .str
  | "personal_cloud_status" => some .str
  | "personal_cloud_domain" => some .str
  | "personal_cloud_last_updated" => some .str
  | "copilot_model" => some .str
  | "copilot_accent" => some .str
  | "copilot_use_ltm" => some .bool
  | "ml_context_level" => some .str
  | "ml_processing_mode" => some .str
  | "ltm_enabled" => some .bool
  | "ltm_permissions" => some .str
  | "ui_default_view" => some .str
  | "ui_confirmations" => some .str
  | "ui_metrics_summary" => some .str
  | "ui_default_toolbar" => some .str
  | "ui_theme_mode" => some .str
  | "ui_accent" => some .str
  | "ui_font_size" => some .str
  | "ui_font_weight" => some .str
  | "ui_density" => some .str
  | "telemetry_enabled" => some .bool
  | _ => none

/-- The settings table: key/value rows with `key` primary. -/
abbrev Settings := List (String × String)

/-- `set_setting`: `INSERT ... ON CONFLICT(key) DO UPDATE SET value`. -/
def set_setting (st : Settings) (key value : String) : Settings :=
  if (st.map Prod.fst).contains key then
    st.map (fun kv => if kv.1 = key then (key, value) else kv)
  else st ++ [(key, value)]

/-- `get_setting(key, default)`. -/
def get_setting (st : Settings) (key dflt : String) : String :=
  match st.find? (fun kv => kv.1 == key) with
  | some kv => kv.2
  | none => dflt

/-- `parse_bool_value`: strict true/false vocabulary, `None` otherwise. -/
def parse_bool_value (value : String) : Option Bool :=
  let val := pyLower (pyStrip value)
  if val = "1" ∨ val = "true" ∨ val = "yes" ∨ val = "on" then some true
  else if val = "0" ∨ val = "false" ∨ val = "no" ∨ val = "off" then some false
  else none

/-- `set_bool_setting`: store `"1"` or `"0"`. -/
def set_bool_setting (st : Settings) (key : String) (value : Bool) : Settings :=
  set_setting st key (if value then "1" else "0")

/-- `set_setting_typed(key, value)`: validate against `SETTINGS_SPEC` and
store; `(ok, message)` plus the post-state.  `jloads`/`jdumps` stand for
`json.loads` (`.error e` for a parse exception with message `e`) and
`json.dumps`. -/
def set_setting_typed (jloads : String → Except String JVal)
    (jdumps : JVal → String) (st : Settings) (key : String) (value : PyVal) :
    (Bool × String) × Settings :=
  match settingsSpec key with
  | none => ((false, "unknown key '" ++ key ++ "'"), st)
  | some .bool =>
    match value with
    | .bool b =>
      ((true, "set " ++ key ++ "=" ++ PyVal.toStr (.bool b)),
        set_bool_setting st key b)
    | _ =>
      match parse_bool_value value.toStr with
      | none => ((false, "value must be true/false or 1/0"), st)
      | some b =>
        ((true, "set " ++ key ++ "=" ++ PyVal.toStr (.bool b)),
          set_bool_setting st key b)
  | some .json =>
    let data : Except String JVal :=
      match value with
      | .str s => jloads s
      | .bool b => .ok (.bool b)
    match data with
    | .error e => ((false, "invalid JSON: " ++ e), st)
    | .ok j =>
      if j.isListOrDict then
        ((true, "set " ++ key), set_setting st key (jdumps j))
      else ((false, "value must be a JSON list or object"), st)
  | some .str =>
    ((true, "set " ++ key ++ "=" ++ value.toStr), set_setting st key value.toStr)

/-! ## Tags -/

/-- The slice of the database that tag assignment touches: `clips`, `tags`
(id, name), `clip_tags` (clip_id, tag_id) and `settings`. -/
structure Store where
  clips : List Clip
  tags : List (Nat × String)
  clipTags : List (Nat × Nat)
  settings : Settings
deriving Repr, DecidableEq

/-- `lastrowid` for the `tags` table. -/
def nextTagId (tags : List (Nat × String)) : Nat :=
  (tags.map Prod.fst).foldr max 0 + 1

/-- `get_or_create_tag`: normalise, raise `ValueError("empty tag")` on an
empty result, else find or insert the tag row (the insert commits). -/
def get_or_create_tag (st : Store) (name : String) :
    Except String (Nat × Store) :=
  let tagNorm := pyLower (pyStrip name)
  if tagNorm = "" then .error "empty tag"
  else
    match st.tags.find? (fun tg => tg.2 == tagNorm) with
    | some tg => .ok (tg.1, st)
    | none =>
      let tid := nextTagId st.tags
      .ok (tid, { st with tags := st.tags ++ [(tid, tagNorm)] })

/-- Python `int(v)` on a JSON value: truncation for numbers, string parse
for strings, 0/1 for bools, an exception (`none`) otherwise. -/
def jvalToInt : JVal → Option Int
  | .num q => some (if 0 ≤ q then q.floor else q.ceil)
  | .str s => (pyStrip s).toInt?
  | .bool b => some (if b then 1 else 0)
  | _ => none

/-- `get_cap_map(key)`: parse the stored JSON object into a lowercase-keyed
int map, skipping entries `int()` rejects; anything that is not a JSON
object (or fails to parse, or is unset) yields the empty map. -/
def get_cap_map (jloads : String → Except String JVal) (st : Settings)
    (key : String) : List (String × Int) :=
  let raw := get_setting st key ""
  if raw = "" then []
  else
    match jloads raw with
    | .ok (.obj fields) =>
      fields.foldl
        (fun acc kv =>
          match jvalToInt kv.2 with
          | some i =>
            if (acc.map Prod.fst).contains (pyLower kv.1) then
              acc.map (fun e => if e.1 = pyLower kv.1 then (e.1, i) else e)
            else acc ++ [(pyLower kv.1, i)]
          | none => acc)
        []
    | _ => []

/-- The candidate rows of `evict_tag_cap`: clips carrying the tag (via the
join through `clip_tags` and `tags`), oldest first. -/
def tagRows (st : Store) (tag : String) : List Clip :=
  pySort (fun a b => decide (a.createdAt ≤ b.createdAt))
    (st.clips.filter (fun c =>
      st.clipTags.any (fun ct =>
        ct.1 == c.id && st.tags.any (fun tg =>
          tg.1 == ct.2 && pyLower tg.2 == pyLower tag))))

/-- Delete the clips with the given ids, cascading to `clip_tags`. -/
def deleteClips (st : Store) (vids : List Nat) : Store :=
  { st with
    clips := st.clips.filter (fun c => !vids.contains c.id)
    clipTags := st.clipTags.filter (fun ct => !vids.contains ct.1) }

/-- `evict_tag_cap(tag, cap)`: the same two-phase unpinned-then-pinned
policy as `evict_app_cap`, scoped to the clips carrying the tag. -/
def evict_tag_cap (st : Store) (tag : String) (cap : Int) : Nat × Store :=
  if cap ≤ 0 ∨ tag = "" then (0, st)
  else
    let rows := tagRows st tag
    if rows.length ≤ cap.toNat then (0, st)
    else
      let victims := twoPhaseVictims rows (rows.length - cap.toNat)
      (victims.length, deleteClips st (victims.map Clip.id))

/-- `assign_tag(clip_id, tag)`: get-or-create the tag (`ValueError`
propagates), `INSERT OR IGNORE` the link — a foreign-key violation for a
missing clip raises `IntegrityError`, caught and turned into `False`, with
the tag row already committed — then run the per-tag cap eviction when
`cap_by_tag` has an entry for the tag.  Returns `(ok, post-state)`. -/
def assign_tag (jloads : String → Except String JVal) (st : Store)
    (clipId : Nat) (tag : String) : Except String (Bool × Store) :=
  match get_or_create_tag st tag with
  | .error e => .error e
  | .ok (tagId, st1) =>
    if !(st1.clips.any (fun c => c.id == clipId)) then .ok (false, st1)
    else
      let st2 :=
        if st1.clipTags.contains (clipId, tagId) then st1
        else { st1 with clipTags := st1.clipTags ++ [(clipId, tagId)] }
      let capMap := get_cap_map jloads st2.settings "cap_by_tag"
      let tagNorm := pyLower (pyStrip tag)
      match capMap.lookup tagNorm with
      | some cap => .ok (true, (evict_tag_cap st2 tagNorm cap).2)
      | none => .ok (true, st2)

/-! ## Lemmas about the stable sort -/

theorem length_insertSorted (le : α → α → Bool) (a : α) (l : List α) :
    (insertSorted le a l).length = l.length + 1 := by
  induction l with
  | nil => rfl
  | cons b bs ih =>
    by_cases h : le a b = true
    · simp [insertSorted, h]
    · simp [insertSorted, h, ih]

theorem perm_insertSorted (le : α → α → Bool) (a : α) (l : List α) :
    (insertSorted le a l).Perm (a :: l) := by
  induction l with
  | nil => simp [insertSorted]
  | cons b bs ih =>
    by_cases h : le a b = true
    · simp [insertSorted, h]
    · simp only [insertSorted, h]
      exact (ih.cons b).trans (List.Perm.swap a b bs)

theorem pySort_perm (le : α → α → Bool) (l : List α) :
    (pySort le l).Perm l := by
  induction l with
  | nil => simp [pySort]
  | cons a as ih =>
    have : pySort le (a :: as) = insertSorted le a (pySort le as) := rfl
    rw [this]
    exact (perm_insertSorted le a (pySort le as)).trans (ih.cons a)

theorem mem_insertSorted {le : α → α → Bool} {a x : α} {l : List α} :
    x ∈ insertSorted le a l ↔ x = a ∨ x ∈ l := by
  constructor
  · intro hx
    have := (perm_insertSorted le a l).mem_iff.mp hx
    simpa using this
  · intro hx
    apply (perm_insertSorted le a l).mem_iff.mpr
    simpa using hx

theorem sorted_insertSorted {le : α → α → Bool}
    (htot : ∀ a b, le a b || le b a)
    (htrans : ∀ a b c, le a b = true → le b c = true → le a c = true)
    {l : List α} (a : α) (hl : l.Pairwise (fun x y => le x y = true)) :
    (insertSorted le a l).Pairwise (fun x y => le x y = true) := by
  induction l with
  | nil => simp [insertSorted]
  | cons b bs ih =>
    rcases List.pairwise_cons.mp hl with ⟨hb, hbs⟩
    by_cases h : le a b = true
    · simp only [insertSorted, h, if_true]
      refine List.pairwise_cons.mpr ⟨?_, hl⟩
      intro x hx
      rcases List.mem_cons.mp hx with rfl | hx
      · exact h
      · exact htrans a b x h (hb x hx)
    · simp only [insertSorted, h, if_false]
      refine List.pairwise_cons.mpr ⟨?_, ih hbs⟩
      intro x hx
      rcases mem_insertSorted.mp hx with hxa | hx
      · rw [hxa]
        rcases Bool.or_eq_true_iff.mp (htot a b) with h' | h'
        · exact absurd h' h
        · exact h'
      · exact hb x hx

theorem pySort_sorted {le : α → α → Bool}
    (htot : ∀ a b, le a b || le b a)
    (htrans : ∀ a b c, le a b = true → le b c = true → le a c = true)
    (l : List α) :
    (pySort le l).Pairwise (fun x y => le x y = true) := by
  induction l with
  | nil => simp [pySort]
  | cons a as ih => exact sorted_insertSorted htot htrans a ih

theorem filter_insertSorted_score (a : ℚ × Nat) (l : List (ℚ × Nat)) (s : ℚ) :
    (insertSorted (fun x y => decide (y.1 ≤ x.1)) a l).filter
        (fun x => decide (x.1 = s)) =
      if a.1 = s then a :: l.filter (fun x => decide (x.1 = s))
      else l.filter (fun x => decide (x.1 = s)) := by
  induction l with
  | nil =>
    by_cases ha : a.1 = s <;> simp [insertSorted, ha]
  | cons b bs ih =>
    by_cases h : (b.1 ≤ a.1)
    · simp only [insertSorted, decide_eq_true_eq, h, if_true]
      by_cases ha : a.1 = s <;> simp [ha]
    · simp only [insertSorted, decide_eq_true_eq, h, if_false]
      have hab : a.1 < b.1 := lt_of_not_le h
      by_cases ha : a.1 = s
      · have hb : ¬ b.1 = s := by
          intro hbs
          rw [ha] at hab
          rw [hbs] at hab
          exact lt_irrefl s hab
        simp [ha, hb, ih]
      · by_cases hb : b.1 = s <;> simp [ha, hb, ih]

theorem pySort_score_stable (l : List (ℚ × Nat)) (s : ℚ) :
    (pySort (fun x y => decide (y.1 ≤ x.1)) l).filter
        (fun x => decide (x.1 = s)) =
      l.filter (fun x => decide (x.1 = s)) := by
  induction l with
  | nil => rfl
  | cons a as ih =>
    have h1 : pySort (fun x y => decide (y.1 ≤ x.1)) (a :: as) =
        insertSorted (fun x y => decide (y.1 ≤ x.1)) a
          (pySort (fun x y => decide (y.1 ≤ x.1)) as) := rfl
    rw [h1, filter_insertSorted_score]
    by_cases ha : a.1 = s <;> simp [ha, ih]

/-! ## C7: KNN ordering -/

/-- C7.  `knn` returns at most `limit` pairs, each pair's score is the dot
product of the query with that candidate's vector, the output is sorted by
descending score, and ties keep the candidate input order (the full ranking
restricted to any fixed score equals the unsorted score list so restricted;
with identical input the pure function trivially returns identical output). -/
theorem knn_spec (query : List ℚ) (ids : List Nat) (vecs : List (List ℚ))
    (limit : Nat) :
    (knn query ids vecs limit).length ≤ limit ∧
    (knn query ids vecs limit).Pairwise (fun a b => b.1 ≤ a.1) ∧
    (∀ p ∈ knn query ids vecs limit,
      ∃ iv ∈ List.zip ids vecs, p = (cosine query iv.2, iv.1)) ∧
    (∀ s : ℚ, (knnSorted query ids vecs).filter (fun x => decide (x.1 = s)) =
      (knnSims query ids vecs).filter (fun x => decide (x.1 = s))) := by
  refine ⟨?_, ?_, ?_, ?_⟩
  · simp [knn]
  · have htot : ∀ a b : ℚ × Nat,
        (fun x y => decide (y.1 ≤ x.1)) a b || (fun x y => decide (y.1 ≤ x.1)) b a := by
      intro a b
      by_cases h : b.1 ≤ a.1 <;> simp [h, le_of_not_le]
    have htrans : ∀ a b c : ℚ × Nat,
        (fun x y => decide (y.1 ≤ x.1)) a b = true →
        (fun x y => decide (y.1 ≤ x.1)) b c = true →
        (fun x y => decide (y.1 ≤ x.1)) a c = true := by
      intro a b c hab hbc
      simp only [decide_eq_true_eq] at *
      exact le_trans hbc hab
    have hs := pySort_sorted htot htrans (knnSims query ids vecs)
    have : (knnSorted query ids vecs).Pairwise (fun a b => b.1 ≤ a.1) := by
      refine hs.imp ?_
      intro a b h
      simpa using h
    exact this.sublist (List.take_sublist limit _)
  · intro p hp
    have hp1 : p ∈ knnSorted query ids vecs :=
      List.mem_of_mem_take hp
    have hp2 : p ∈ knnSims query ids vecs :=
      (pySort_perm _ _).mem_iff.mp hp1
    rcases List.mem_map.mp hp2 with ⟨iv, hiv, hiv2⟩
    exact ⟨iv, hiv, hiv2.symm⟩
  · intro s
    exact pySort_score_stable (knnSims query ids vecs) s

/-- Witness for C7 at a concrete input: the top result of a two-candidate
query is the higher-scoring candidate, and its score is the dot product. -/
theorem knn_spec_witness :
    ∃ iv ∈ List.zip [5, 6] [[(1 : ℚ)], [2]], ((2 : ℚ), 6) = (cosine [1] iv.2, iv.1) := by
  refine (knn_spec [1] [5, 6] [[1], [2]] 2).2.2.1 ((2 : ℚ), 6) ?_
  simp [knn, knnSorted, knnSims, cosine, pySort, insertSorted]

/-! ## C8: related clips -/

/-- C8.  The `cmd_related` ranking — `knn` seeded with the clip's own stored
vector, fetched at `limit + 1` — never contains the seed clip's id and has
at most `limit` entries, each drawn from that internal `knn` call. -/
theorem cmd_related_spec (qvec : List ℚ) (ids : List Nat)
    (vecs : List (List ℚ)) (selfId : Nat) (limit : Nat) :
    (∀ p ∈ relatedSims qvec ids vecs selfId limit, p.2 ≠ selfId) ∧
    (relatedSims qvec ids vecs selfId limit).length ≤ limit ∧
    (∀ p ∈ relatedSims qvec ids vecs selfId limit,
      p ∈ knn qvec ids vecs (limit + 1)) := by
  refine ⟨?_, ?_, ?_⟩
  · intro p hp
    have hp1 : p ∈ (knn qvec ids vecs (limit + 1)).filter (fun p => p.2 ≠ selfId) :=
      List.mem_of_mem_take hp
    have := List.of_mem_filter hp1
    simp only [ne_eq, decide_not, Bool.not_eq_eq_eq_not, Bool.not_true,
      decide_eq_false_iff_not] at this
    exact this
  · simp [relatedSims]
  · intro p hp
    exact List.mem_of_mem_filter (List.mem_of_mem_take hp)

/-- Witness for C8: with the seed's own vector among the candidates, the
seed id 1 is excluded and the single result is clip 2. -/
theorem cmd_related_spec_witness :
    (∀ p ∈ relatedSims [(1 : ℚ)] [1, 2] [[(1 : ℚ)], [(1 : ℚ) / 2]] 1 1, p.2 ≠ 1) ∧
    (relatedSims [(1 : ℚ)] [1, 2] [[(1 : ℚ)], [(1 : ℚ) / 2]] 1 1).length ≤ 1 ∧
    (∀ p ∈ relatedSims [(1 : ℚ)] [1, 2] [[(1 : ℚ)], [(1 : ℚ) / 2]] 1 1,
      p ∈ knn [(1 : ℚ)] [1, 2] [[(1 : ℚ)], [(1 : ℚ) / 2]] 2) :=
  cmd_related_spec [(1 : ℚ)] [1, 2] [[(1 : ℚ)], [(1 : ℚ) / 2]] 1 1

/-! ## C1: deduplicated insert -/

/-- C1.  `insert_clip` with no supplied digest: empty trimmed content or an
existing live clip with the same content hash returns `None` and leaves the
table unchanged; otherwise it returns the id of the one appended row.  A
second insert of the same content is then a no-op, and exactly one live
clip carries the hash. -/
theorem insert_clip_spec (sha256 : String → String) (now now2 : Nat)
    (clips : List Clip) (content app app2 : String) :
    (pyStrip content = "" ∨ clip_exists clips (sha256 (pyStrip content)) = true →
      insert_clip sha256 now clips content app none = (none, clips)) ∧
    (pyStrip content ≠ "" → clip_exists clips (sha256 (pyStrip content)) = false →
      insert_clip sha256 now clips content app none =
        (some (nextId clips),
          clips ++ [⟨nextId clips, now, app, pyStrip content,
            sha256 (pyStrip content), false⟩]) ∧
      insert_clip sha256 now2
          (insert_clip sha256 now clips content app none).2 content app2 none =
        (none, (insert_clip sha256 now clips content app none).2) ∧
      ((insert_clip sha256 now clips content app none).2.filter
          (fun c => c.hash == sha256 (pyStrip content))).length = 1) := by
  constructor
  · rintro (h | h)
    · simp [insert_clip, h]
    · by_cases he : pyStrip content = ""
      · simp [insert_clip, he]
      · simp [insert_clip, he, h]
  · intro he hx
    have h1 : insert_clip sha256 now clips content app none =
        (some (nextId clips),
          clips ++ [⟨nextId clips, now, app, pyStrip content,
            sha256 (pyStrip content), false⟩]) := by
      simp [insert_clip, he, hx]
    refine ⟨h1, ?_, ?_⟩
    · rw [h1]
      have h2 : clip_exists
          (clips ++ [⟨nextId clips, now, app, pyStrip content,
            sha256 (pyStrip content), false⟩]) (sha256 (pyStrip content)) = true := by
        simp [clip_exists]
      simp [insert_clip, he, h2]
    · rw [h1]
      have h3 : clips.filter (fun c => c.hash == sha256 (pyStrip content)) = [] := by
        rw [List.filter_eq_nil_iff]
        intro c hc
        simp only [beq_iff_eq]
        intro hch
        have : clip_exists clips (sha256 (pyStrip content)) = true := by
          simp only [clip_exists, List.any_eq_true]
          exact ⟨c, hc, by simp [hch]⟩
        rw [this] at hx
        exact Bool.true_eq_false.mp hx
      simp [List.filter_append, h3]

/-- Witness for C1: inserting `" hi "` into an empty store (with an
injective stand-in for SHA-256) succeeds with id 1; re-inserting returns
`None` and one live clip holds the hash. -/
theorem insert_clip_spec_witness :
    pyStrip " hi " ≠ "" ∧
    clip_exists [] ((fun s => s) (pyStrip " hi ")) = false ∧
    (insert_clip (fun s => s) 3 [] " hi " "App" none =
      (some 1, [⟨1, 3, "App", "hi", "hi", false⟩]) ∧
     insert_clip (fun s => s) 9
        (insert_clip (fun s => s) 3 [] " hi " "App" none).2 " hi " "B" none =
      (none, (insert_clip (fun s => s) 3 [] " hi " "App" none).2) ∧
     ((insert_clip (fun s => s) 3 [] " hi " "App" none).2.filter
        (fun c => c.hash == (fun s : String => s) (pyStrip " hi "))).length = 1) :=
  ⟨by decide, by decide,
    (insert_clip_spec (fun s => s) 3 9 [] " hi " "App" "B").2 (by decide) (by decide)⟩

/-! ## C2: global cap (`prune`) -/

/-- The claim's words, for comparison with `prune`: the `k` most recent
clips by `created_at`. -/
def specMostRecentByCreatedAt (clips : List Clip) (k : Nat) : List Clip :=
  (pySort (fun a b => decide (b.createdAt ≤ a.createdAt)) clips).take k

/-- Counterexample to C2 as stated: `prune` keeps the rows with the largest
ids, not the most recent by `created_at`.  With row id 1 created at time 10
and row id 2 created at time 5 (an order reachable through federated import,
which stores caller-supplied timestamps), `prune 1` deletes the clip that is
the single most recent one by `created_at`. -/
theorem prune_createdAt_cex :
    (prune [⟨1, 10, "a", "x", "h1", false⟩, ⟨2, 5, "a", "y", "h2", false⟩] 1).1 = 1 ∧
    (⟨1, 10, "a", "x", "h1", false⟩ : Clip) ∈
      specMostRecentByCreatedAt
        [⟨1, 10, "a", "x", "h1", false⟩, ⟨2, 5, "a", "y", "h2", false⟩] 1 ∧
    (⟨1, 10, "a", "x", "h1", false⟩ : Clip) ∉
      (prune [⟨1, 10, "a", "x", "h1", false⟩, ⟨2, 5, "a", "y", "h2", false⟩] 1).2 := by
  refine ⟨by decide, by decide, by decide⟩

/-- A filter that holds exactly on the first `n` positions returns the
`n`-prefix. -/
theorem filter_eq_take_of_split (p : α → Bool) (l : List α) (n : Nat)
    (ht : ∀ c ∈ l.take n, p c = true) (hd : ∀ c ∈ l.drop n, p c = false) :
    l.filter p = l.take n := by
  conv_lhs => rw [← List.take_append_drop n l]
  rw [List.filter_append, List.filter_eq_self.mpr ht,
    List.filter_eq_nil_iff.mpr (fun a ha hpa => by rw [hd a ha] at hpa; cases hpa),
    List.append_nil]

/-- `List.contains` on ids agrees with membership. -/
theorem contains_nat_iff (ids : List Nat) (i : Nat) :
    ids.contains i = true ↔ i ∈ ids := by
  simp

/-- C2 (amended: "most recent" means largest id — insertion order — which
coincides with `created_at` order whenever `created_at` is nondecreasing in
id, as on the capture path).  For `cap = K > 0` and `N > K` rows with
distinct ids, `prune` deletes exactly `N - K` rows and returns that count,
keeping exactly the `K` rows with the largest ids; for `K ≤ 0` or `N ≤ K`
it deletes nothing and returns 0. -/
theorem prune_spec (clips : List Clip) (cap : Int)
    (hnodup : (clips.map Clip.id).Nodup) :
    (cap ≤ 0 → prune clips cap = (0, clips)) ∧
    (0 < cap → clips.length ≤ cap.toNat → prune clips cap = (0, clips)) ∧
    (0 < cap → cap.toNat < clips.length →
      (prune clips cap).1 = clips.length - cap.toNat ∧
      (prune clips cap).2.length = cap.toNat ∧
      (∀ c ∈ (prune clips cap).2, c ∈ clips) ∧
      (∀ c ∈ (prune clips cap).2, ∀ d ∈ clips,
        d ∉ (prune clips cap).2 → d.id < c.id)) := by
  have hlen : (byIdDesc clips).length = clips.length :=
    (pySort_perm _ clips).length_eq
  refine ⟨?_, ?_, ?_⟩
  · intro hcap
    simp only [prune, if_pos hcap]
  · intro hcap hle
    have hnotle : ¬ cap ≤ 0 := not_le.mpr hcap
    have hkeep : (byIdDesc clips).take cap.toNat = byIdDesc clips :=
      List.take_of_length_le (by rw [hlen]; exact hle)
    have hfil : clips.filter
        (fun c => (((byIdDesc clips).take cap.toNat).map Clip.id).contains c.id) =
        clips := by
      apply List.filter_eq_self.mpr
      intro c hc
      rw [hkeep]
      have hmem : c ∈ byIdDesc clips := (pySort_perm _ clips).mem_iff.mpr hc
      exact (contains_nat_iff _ _).mpr (List.mem_map.mpr ⟨c, hmem, rfl⟩)
    simp only [prune, if_neg hnotle]
    rw [hfil, Nat.sub_self]
  · intro hcap hlt
    have hnotle : ¬ cap ≤ 0 := not_le.mpr hcap
    have hperm : (byIdDesc clips).Perm clips := pySort_perm _ clips
    have hnodup2 : ((byIdDesc clips).map Clip.id).Nodup :=
      ((hperm.map Clip.id).nodup_iff).mpr hnodup
    have hinj := List.inj_on_of_nodup_map hnodup2
    have hnodup3 : (byIdDesc clips).Nodup := List.Nodup.of_map Clip.id hnodup2
    have htot : ∀ a b : Clip,
        (fun a b : Clip => decide (b.id ≤ a.id)) a b ||
          (fun a b : Clip => decide (b.id ≤ a.id)) b a := by
      intro a b
      by_cases h : b.id ≤ a.id <;> simp [h, le_of_not_le]
    have htrans : ∀ a b c : Clip,
        (fun a b : Clip => decide (b.id ≤ a.id)) a b = true →
        (fun a b : Clip => decide (b.id ≤ a.id)) b c = true →
        (fun a b : Clip => decide (b.id ≤ a.id)) a c = true := by
      intro a b c hab hbc
      simp only [decide_eq_true_eq] at *
      exact le_trans hbc hab
    have hsorted : (byIdDesc clips).Pairwise (fun a b => b.id ≤ a.id) := by
      refine (pySort_sorted htot htrans clips).imp ?_
      intro a b h
      simpa using h
    have hchar : ∀ c ∈ byIdDesc clips,
        ((((byIdDesc clips).take cap.toNat).map Clip.id).contains c.id = true ↔
          c ∈ (byIdDesc clips).take cap.toNat) := by
      intro c hc
      rw [contains_nat_iff, List.mem_map]
      constructor
      · rintro ⟨d, hd, hdc⟩
        have hd2 : d ∈ byIdDesc clips := (List.take_sublist _ _).mem hd
        have hdc2 : d = c := hinj hd2 hc hdc
        rw [← hdc2]
        exact hd
      · intro hc2
        exact ⟨c, hc2, rfl⟩
    have hsplit := List.take_append_drop cap.toNat (byIdDesc clips)
    have hnodup4 : (((byIdDesc clips).take cap.toNat) ++
        ((byIdDesc clips).drop cap.toNat)).Nodup := by rw [hsplit]; exact hnodup3
    have hdisj2 : ((byIdDesc clips).take cap.toNat).Disjoint
        ((byIdDesc clips).drop cap.toNat) := (List.nodup_append.mp hnodup4).2.2
    have hfs : (byIdDesc clips).filter
        (fun c => (((byIdDesc clips).take cap.toNat).map Clip.id).contains c.id) =
        (byIdDesc clips).take cap.toNat :=
      filter_eq_take_of_split _ _ _
        (fun c hc => (hchar c ((List.take_sublist _ _).mem hc)).mpr hc)
        (fun c hc => by
          cases hpc : (((byIdDesc clips).take cap.toNat).map Clip.id).contains c.id with
          | false => rfl
          | true =>
            have hc2 : c ∈ byIdDesc clips := (List.drop_sublist _ _).mem hc
            exact absurd ((hchar c hc2).mp hpc) (fun hct => hdisj2 hct hc))
    have hremlen : (clips.filter
        (fun c => (((byIdDesc clips).take cap.toNat).map Clip.id).contains c.id)).length =
        cap.toNat := by
      have hp := (List.Perm.filter
        (fun c => (((byIdDesc clips).take cap.toNat).map Clip.id).contains c.id) hperm)
      rw [← hp.length_eq, hfs, List.length_take, hlen]
      exact min_eq_left (le_of_lt hlt)
    refine ⟨?_, ?_, ?_, ?_⟩
    · simp only [prune, if_neg hnotle]
      rw [hremlen]
    · simp only [prune, if_neg hnotle]
      exact hremlen
    · intro c hc
      simp only [prune, if_neg hnotle] at hc
      exact List.mem_of_mem_filter hc
    · intro c hc d hd hdnot
      simp only [prune, if_neg hnotle] at hc hdnot
      have hc2 := List.mem_filter.mp hc
      have hctake : c ∈ (byIdDesc clips).take cap.toNat :=
        (hchar c (hperm.mem_iff.mpr hc2.1)).mp hc2.2
      have hddrop : d ∈ (byIdDesc clips).drop cap.toNat := by
        have hd2 : d ∈ byIdDesc clips := hperm.mem_iff.mpr hd
        have hdnt : d ∉ (byIdDesc clips).take cap.toNat := by
          intro hdt
          exact hdnot (List.mem_filter.mpr
            ⟨hd, (hchar d (hperm.mem_iff.mpr hd)).mpr hdt⟩)
        rcases (List.mem_append.mp (by rw [hsplit]; exact hd2)) with h | h
        · exact absurd h hdnt
        · exact h
      have hpw : ∀ a ∈ (byIdDesc clips).take cap.toNat,
          ∀ b ∈ (byIdDesc clips).drop cap.toNat, b.id ≤ a.id := by
        have hsp := hsorted
        conv at hsp => rw [← hsplit]
        exact (List.pairwise_append.mp hsp).2.2
      have hle : d.id ≤ c.id := hpw c hctake d hddrop
      have hne : d ≠ c := fun h => hdisj2 (h ▸ hctake) hddrop
      have hidne : d.id ≠ c.id := by
        intro h
        exact hne (hinj ((List.drop_sublist _ _).mem hddrop)
          ((List.take_sublist _ _).mem hctake) h)
      exact lt_of_le_of_ne hle hidne

/-- Witness for C2 (amended): five clips, cap 3 — two deleted, the three
of largest id (= three most recent on the capture path) survive. -/
theorem prune_spec_witness :
    (prune [⟨1, 1, "a", "v", "h1", false⟩, ⟨2, 2, "a", "w", "h2", false⟩,
        ⟨3, 3, "a", "x", "h3", false⟩, ⟨4, 4, "a", "y", "h4", false⟩,
        ⟨5, 5, "a", "z", "h5", false⟩] 3).1 = 2 ∧
    (prune [⟨1, 1, "a", "v", "h1", false⟩, ⟨2, 2, "a", "w", "h2", false⟩,
        ⟨3, 3, "a", "x", "h3", false⟩, ⟨4, 4, "a", "y", "h4", false⟩,
        ⟨5, 5, "a", "z", "h5", false⟩] 3).2.length = 3 :=
  have h := prune_spec
    [⟨1, 1, "a", "v", "h1", false⟩, ⟨2, 2, "a", "w", "h2", false⟩,
      ⟨3, 3, "a", "x", "h3", false⟩, ⟨4, 4, "a", "y", "h4", false⟩,
      ⟨5, 5, "a", "z", "h5", false⟩] 3 (by decide)
  ⟨(h.2.2 (by decide) (by decide)).1, (h.2.2 (by decide) (by decide)).2.1⟩

/-! ## Helper lemmas for the two-phase evictions -/

/-- In a list sorted by nondecreasing `createdAt`, anything strictly older
than a member of the `n`-prefix is itself in the `n`-prefix. -/
theorem mem_take_of_createdAt_lt {l : List Clip} {n : Nat}
    (hpw : l.Pairwise (fun a b => a.createdAt ≤ b.createdAt))
    {c d : Clip} (hc : c ∈ l.take n) (hd : d ∈ l)
    (hlt : d.createdAt < c.createdAt) : d ∈ l.take n := by
  have hsplit := List.take_append_drop n l
  have hd2 : d ∈ l.take n ++ l.drop n := by rw [hsplit]; exact hd
  rcases List.mem_append.mp hd2 with h | h
  · exact h
  · exfalso
    have hpw2 : List.Pairwise (fun a b => a.createdAt ≤ b.createdAt)
        (l.take n ++ l.drop n) := by rw [hsplit]; exact hpw
    have := (List.pairwise_append.mp hpw2).2.2 c hc d h
    exact absurd this (not_le.mpr hlt)

theorem twoPhaseVictims_subset (rows : List Clip) (over : Nat) :
    ∀ c ∈ twoPhaseVictims rows over, c ∈ rows := by
  intro c hc
  rcases List.mem_append.mp hc with h | h
  · exact List.mem_of_mem_filter ((List.take_sublist _ _).mem h)
  · exact List.mem_of_mem_filter ((List.take_sublist _ _).mem h)

theorem twoPhaseVictims_length (rows : List Clip) (over : Nat)
    (hover : over ≤ rows.length) :
    (twoPhaseVictims rows over).length = over := by
  have hpart := List.length_eq_length_filter_add
    (l := rows) (fun c => !c.pinned)
  simp only [twoPhaseVictims, List.length_append, List.length_take]
  have hnn : ∀ c : Clip, ((!(!c.pinned)) = c.pinned) := by
    intro c
    cases c.pinned <;> rfl
  have hpin : rows.filter (fun c => !(!c.pinned)) = rows.filter (fun c => c.pinned) := by
    apply List.filter_congr
    intro c _
    rw [hnn c]
  rw [hpin] at hpart
  rcases le_or_lt over (rows.filter (fun c => !c.pinned)).length with h | h
  · rw [min_eq_left h, Nat.sub_eq_zero_of_le h]
    simp
  · rw [min_eq_right (le_of_lt h), min_eq_left (by omega)]
    omega

theorem twoPhaseVictims_nodup (rows : List Clip) (over : Nat)
    (hnd : rows.Nodup) : (twoPhaseVictims rows over).Nodup := by
  apply List.nodup_append.mpr
  refine ⟨?_, ?_, ?_⟩
  · exact ((List.take_sublist _ _).trans (List.filter_sublist _)).nodup hnd
  · exact ((List.take_sublist _ _).trans (List.filter_sublist _)).nodup hnd
  · intro x hx hx2
    have hx1 : x ∈ rows.filter (fun c => !c.pinned) :=
      (List.take_sublist _ _).mem hx
    have hx3 : x ∈ rows.filter (fun c => c.pinned) :=
      (List.take_sublist _ _).mem hx2
    have h1 := List.of_mem_filter hx1
    have h2 := List.of_mem_filter hx3
    simp only [Bool.not_eq_true'] at h1
    rw [h1] at h2
    cases h2

/-- Deleting a Nodup sub-collection of rows by id removes exactly its
members. -/
theorem delete_victims_mem {clips victims : List Clip}
    (hnodup : (clips.map Clip.id).Nodup)
    (hsub : ∀ v ∈ victims, v ∈ clips) (c : Clip) (hc : c ∈ clips) :
    c ∈ clips.filter (fun x => !((victims.map Clip.id).contains x.id)) ↔
      c ∉ victims := by
  have hinj := List.inj_on_of_nodup_map hnodup
  constructor
  · intro hcf hcv
    have := List.of_mem_filter hcf
    rw [Bool.not_eq_true', ← Bool.not_eq_true] at this
    exact this ((contains_nat_iff _ _).mpr (List.mem_map.mpr ⟨c, hcv, rfl⟩))
  · intro hcv
    apply List.mem_filter.mpr
    refine ⟨hc, ?_⟩
    rw [Bool.not_eq_true']
    cases hcont : (victims.map Clip.id).contains c.id
    · rfl
    · exfalso
      rcases List.mem_map.mp ((contains_nat_iff _ _).mp hcont) with ⟨v, hv, hvid⟩
      have : v = c := hinj (hsub v hv) hc hvid
      rw [this] at hv
      exact hcv hv

theorem delete_victims_length {clips victims : List Clip}
    (hnodup : (clips.map Clip.id).Nodup)
    (hsub : ∀ v ∈ victims, v ∈ clips) (hvnd : victims.Nodup) :
    (clips.filter (fun x => !((victims.map Clip.id).contains x.id))).length =
      clips.length - victims.length := by
  have hinj := List.inj_on_of_nodup_map hnodup
  have hclipsnd : clips.Nodup := List.Nodup.of_map Clip.id hnodup
  have hperm : (clips.filter
      (fun x => ((victims.map Clip.id).contains x.id))).Perm victims := by
    apply List.perm_of_nodup_nodup_toFinset_eq
    · exact hclipsnd.filter _
    · exact hvnd
    · apply Finset.ext
      intro x
      simp only [List.mem_toFinset, List.mem_filter]
      constructor
      · rintro ⟨hx, hcont⟩
        rcases List.mem_map.mp ((contains_nat_iff _ _).mp hcont) with ⟨v, hv, hvid⟩
        have : v = x := hinj (hsub v hv) hx hvid
        rw [← this]
        exact hv
      · intro hx
        exact ⟨hsub x hx,
          (contains_nat_iff _ _).mpr (List.mem_map.mpr ⟨x, hx, rfl⟩)⟩
  have hpart := List.length_eq_length_filter_add
    (l := clips) (fun x => ((victims.map Clip.id).contains x.id))
  rw [hperm.length_eq] at hpart
  omega

/-! ## C3: per-app cap -/

/-- C3.  With cap `K > 0` and `n > K` clips of the app (distinct ids),
`evict_app_cap` deletes exactly `n - K` of that app's rows and returns that
count; a pinned row is deleted only if the unpinned supply is below the
excess — in which case every unpinned row of the app is deleted — and within
each phase eviction is oldest-first; with `n ≤ K` (or a nonpositive cap or
empty app name) nothing is deleted and 0 is returned. -/
theorem evict_app_cap_spec (clips : List Clip) (app : String) (cap : Int)
    (hnodup : (clips.map Clip.id).Nodup) :
    (cap ≤ 0 ∨ app = "" → evict_app_cap clips app cap = (0, clips)) ∧
    (¬(cap ≤ 0 ∨ app = "") → (appRows clips app).length ≤ cap.toNat →
      evict_app_cap clips app cap = (0, clips)) ∧
    (¬(cap ≤ 0 ∨ app = "") → cap.toNat < (appRows clips app).length →
      (evict_app_cap clips app cap).1 = (appRows clips app).length - cap.toNat ∧
      (evict_app_cap clips app cap).2.length =
        clips.length - ((appRows clips app).length - cap.toNat) ∧
      (∀ c ∈ clips, c ∉ (evict_app_cap clips app cap).2 →
        c ∈ appRows clips app) ∧
      (∀ c ∈ appRows clips app, c.pinned = true →
        c ∉ (evict_app_cap clips app cap).2 →
        ((appRows clips app).filter (fun x => !x.pinned)).length <
          (appRows clips app).length - cap.toNat ∧
        (∀ u ∈ appRows clips app, u.pinned = false →
          u ∉ (evict_app_cap clips app cap).2)) ∧
      (∀ c ∈ appRows clips app, c.pinned = false →
        c ∉ (evict_app_cap clips app cap).2 →
        ∀ d ∈ appRows clips app, d.pinned = false →
          d.createdAt < c.createdAt →
          d ∉ (evict_app_cap clips app cap).2) ∧
      (∀ c ∈ appRows clips app, c.pinned = true →
        c ∉ (evict_app_cap clips app cap).2 →
        ∀ d ∈ appRows clips app, d.pinned = true →
          d.createdAt < c.createdAt →
          d ∉ (evict_app_cap clips app cap).2)) := by
  refine ⟨?_, ?_, ?_⟩
  · intro h
    simp only [evict_app_cap, if_pos h]
  · intro h1 h2
    simp only [evict_app_cap, if_neg h1, if_pos h2]
  · intro h1 h2
    have happle : ¬ ((appRows clips app).length ≤ cap.toNat) := not_le.mpr h2
    have heq : evict_app_cap clips app cap =
        ((twoPhaseVictims (appRows clips app)
            ((appRows clips app).length - cap.toNat)).length,
          clips.filter (fun c =>
            !((twoPhaseVictims (appRows clips app)
                ((appRows clips app).length - cap.toNat)).map Clip.id).contains
              c.id)) := by
      simp only [evict_app_cap, if_neg h1, if_neg happle]
    have hrsub : ∀ c ∈ appRows clips app, c ∈ clips := fun c hc =>
      List.mem_of_mem_filter ((pySort_perm _ _).mem_iff.mp hc)
    have hrnodup : (appRows clips app).Nodup :=
      ((pySort_perm _ _).nodup_iff).mpr
        ((List.Nodup.of_map Clip.id hnodup).filter _)
    have htot : ∀ a b : Clip,
        (fun a b : Clip => decide (a.createdAt ≤ b.createdAt)) a b ||
          (fun a b : Clip => decide (a.createdAt ≤ b.createdAt)) b a := by
      intro a b
      by_cases h : a.createdAt ≤ b.createdAt <;> simp [h, le_of_not_le]
    have htrans : ∀ a b c : Clip,
        (fun a b : Clip => decide (a.createdAt ≤ b.createdAt)) a b = true →
        (fun a b : Clip => decide (a.createdAt ≤ b.createdAt)) b c = true →
        (fun a b : Clip => decide (a.createdAt ≤ b.createdAt)) a c = true := by
      intro a b c hab hbc
      simp only [decide_eq_true_eq] at *
      exact le_trans hab hbc
    have hrpw : (appRows clips app).Pairwise
        (fun a b => a.createdAt ≤ b.createdAt) := by
      refine (pySort_sorted htot htrans _).imp ?_
      intro a b h
      simpa using h
    have hover : (appRows clips app).length - cap.toNat ≤
        (appRows clips app).length := Nat.sub_le _ _
    have hvsub := twoPhaseVictims_subset
      (appRows clips app) ((appRows clips app).length - cap.toNat)
    have hvsubc : ∀ v ∈ twoPhaseVictims (appRows clips app)
        ((appRows clips app).length - cap.toNat), v ∈ clips :=
      fun v hv => hrsub v (hvsub v hv)
    have hvnd := twoPhaseVictims_nodup
      (appRows clips app) ((appRows clips app).length - cap.toNat) hrnodup
    have hvlen := twoPhaseVictims_length
      (appRows clips app) ((appRows clips app).length - cap.toNat) hover
    have hdelmem := delete_victims_mem hnodup hvsubc
    have hvictpin : ∀ c, c ∈ twoPhaseVictims (appRows clips app)
        ((appRows clips app).length - cap.toNat) → c.pinned = true →
        c ∈ ((appRows clips app).filter (fun x => x.pinned)).take
          ((appRows clips app).length - cap.toNat -
            ((appRows clips app).filter (fun x => !x.pinned)).length) := by
      intro c hc hcp
      rcases List.mem_append.mp hc with h | h
      · exfalso
        have hm := List.of_mem_filter ((List.take_sublist _ _).mem h)
        simp only [Bool.not_eq_true'] at hm
        rw [hcp] at hm
        cases hm
      · exact h
    have hvictunp : ∀ c, c ∈ twoPhaseVictims (appRows clips app)
        ((appRows clips app).length - cap.toNat) → c.pinned = false →
        c ∈ ((appRows clips app).filter (fun x => !x.pinned)).take
          ((appRows clips app).length - cap.toNat) := by
      intro c hc hcp
      rcases List.mem_append.mp hc with h | h
      · exact h
      · exfalso
        have hm := List.of_mem_filter ((List.take_sublist _ _).mem h)
        rw [hcp] at hm
        cases hm
    have hdel_of_vict : ∀ c, c ∈ twoPhaseVictims (appRows clips app)
        ((appRows clips app).length - cap.toNat) →
        c ∉ (clips.filter (fun c =>
          !((twoPhaseVictims (appRows clips app)
              ((appRows clips app).length - cap.toNat)).map Clip.id).contains
            c.id)) := by
      intro c hcv hcf
      exact ((hdelmem c (hvsubc c hcv)).mp hcf) hcv
    have hvict_of_del : ∀ c ∈ clips,
        c ∉ (clips.filter (fun c =>
          !((twoPhaseVictims (appRows clips app)
              ((appRows clips app).length - cap.toNat)).map Clip.id).contains
            c.id)) →
        c ∈ twoPhaseVictims (appRows clips app)
          ((appRows clips app).length - cap.toNat) := by
      intro c hc hcf
      by_contra hcv
      exact hcf ((hdelmem c hc).mpr hcv)
    rw [heq]
    refine ⟨hvlen, ?_, ?_, ?_, ?_, ?_⟩
    · rw [delete_victims_length hnodup hvsubc hvnd, hvlen]
    · intro c hc hcdel
      exact hvsub c (hvict_of_del c hc hcdel)
    · intro c hc hcp hcdel
      have hcv := hvict_of_del c (hrsub c hc) hcdel
      have hcpin := hvictpin c hcv hcp
      have hkpos : 0 < (appRows clips app).length - cap.toNat -
          ((appRows clips app).filter (fun x => !x.pinned)).length := by
        by_contra hk
        push_neg at hk
        have : (appRows clips app).length - cap.toNat -
            ((appRows clips app).filter (fun x => !x.pinned)).length = 0 :=
          Nat.le_zero.mp hk
        rw [this, List.take_zero] at hcpin
        cases hcpin
      refine ⟨by omega, ?_⟩
      intro u hu hup
      have huu : u ∈ (appRows clips app).filter (fun x => !x.pinned) :=
        List.mem_filter.mpr ⟨hu, by rw [hup]; rfl⟩
      have htk : ((appRows clips app).filter (fun x => !x.pinned)).take
          ((appRows clips app).length - cap.toNat) =
          (appRows clips app).filter (fun x => !x.pinned) :=
        List.take_of_length_le (by omega)
      have huv : u ∈ twoPhaseVictims (appRows clips app)
          ((appRows clips app).length - cap.toNat) :=
        List.mem_append.mpr (Or.inl (by rw [htk]; exact huu))
      exact hdel_of_vict u huv
    · intro c hc hcp hcdel d hd hdp hlt
      have hcv := hvict_of_del c (hrsub c hc) hcdel
      have hct := hvictunp c hcv hcp
      have hdu : d ∈ (appRows clips app).filter (fun x => !x.pinned) :=
        List.mem_filter.mpr ⟨hd, by rw [hdp]; rfl⟩
      have hupw : ((appRows clips app).filter (fun x => !x.pinned)).Pairwise
          (fun a b => a.createdAt ≤ b.createdAt) :=
        List.Pairwise.sublist (List.filter_sublist _) hrpw
      have hdt := mem_take_of_createdAt_lt hupw hct hdu hlt
      exact hdel_of_vict d (List.mem_append.mpr (Or.inl hdt))
    · intro c hc hcp hcdel d hd hdp hlt
      have hcv := hvict_of_del c (hrsub c hc) hcdel
      have hct := hvictpin c hcv hcp
      have hdu : d ∈ (appRows clips app).filter (fun x => x.pinned) :=
        List.mem_filter.mpr ⟨hd, hdp⟩
      have hppw : ((appRows clips app).filter (fun x => x.pinned)).Pairwise
          (fun a b => a.createdAt ≤ b.createdAt) :=
        List.Pairwise.sublist (List.filter_sublist _) hrpw
      have hdt := mem_take_of_createdAt_lt hppw hct hdu hlt
      exact hdel_of_vict d (List.mem_append.mpr (Or.inr hdt))

/-- Witness for C3: cap 1, one pinned (older) plus one unpinned clip of app
"T" — one eviction occurs and it removes the unpinned clip, keeping the
pinned one. -/
theorem evict_app_cap_spec_witness :
    (evict_app_cap [⟨1, 1, "T", "x", "h1", true⟩, ⟨2, 2, "T", "y", "h2", false⟩]
        "T" 1).1 = 1 ∧
    (evict_app_cap [⟨1, 1, "T", "x", "h1", true⟩, ⟨2, 2, "T", "y", "h2", false⟩]
        "T" 1).2.length = 1 ∧
    (⟨1, 1, "T", "x", "h1", true⟩ : Clip) ∈
      (evict_app_cap [⟨1, 1, "T", "x", "h1", true⟩, ⟨2, 2, "T", "y", "h2", false⟩]
        "T" 1).2 :=
  have h := evict_app_cap_spec
    [⟨1, 1, "T", "x", "h1", true⟩, ⟨2, 2, "T", "y", "h2", false⟩] "T" 1 (by decide)
  have hm := h.2.2 (by decide) (by decide)
  ⟨hm.1, hm.2.1, by decide⟩

/-! ## C4: tiered database-size eviction -/

theorem byCreatedAsc_length (l : List Clip) :
    (byCreatedAsc l).length = l.length :=
  (pySort_perm _ l).length_eq

/-- C4.  In `tiered` mode with the size cap exceeded, `evict_if_needed`
removes `min (max 1 (5% of total)) total` rows and returns that count (the
full batch `max(1, int(total*0.05))` whenever enough rows exist), the
survivors are rows of the store, a pinned row can only have been removed
with every unpinned row also removed, and with `max_db_mb ≤ 0` or the cap
not exceeded nothing is removed. -/
theorem evict_if_needed_tiered_spec (sizeMb : ℚ) (modeRaw : String)
    (clips : List Clip) (maxDbMb : Int)
    (hnodup : (clips.map Clip.id).Nodup)
    (hmode : get_evict_mode modeRaw = "tiered") :
    (maxDbMb ≤ 0 ∨ sizeMb ≤ (maxDbMb : ℚ) →
      evict_if_needed sizeMb modeRaw clips maxDbMb = (0, clips)) ∧
    (0 < maxDbMb → (maxDbMb : ℚ) < sizeMb →
      (evict_if_needed sizeMb modeRaw clips maxDbMb).1 =
        min (max 1 (clips.length * 5 / 100)) clips.length ∧
      (evict_if_needed sizeMb modeRaw clips maxDbMb).2.length =
        clips.length - (evict_if_needed sizeMb modeRaw clips maxDbMb).1 ∧
      (∀ c ∈ (evict_if_needed sizeMb modeRaw clips maxDbMb).2, c ∈ clips) ∧
      (∀ c ∈ clips, c.pinned = true →
        c ∉ (evict_if_needed sizeMb modeRaw clips maxDbMb).2 →
        ∀ u ∈ clips, u.pinned = false →
          u ∉ (evict_if_needed sizeMb modeRaw clips maxDbMb).2)) := by
  constructor
  · rintro (h | h)
    · simp only [evict_if_needed, if_pos h]
    · by_cases hm : maxDbMb ≤ 0
      · simp only [evict_if_needed, if_pos hm]
      · simp only [evict_if_needed, if_neg hm, if_neg (not_lt.mpr h)]
  · intro hm hsz
    have hm1 : ¬ maxDbMb ≤ 0 := not_le.mpr hm
    by_cases hlen : clips.length > 0
    case neg =>
      have h0 : clips.length = 0 := by omega
      have hnil : clips = [] := List.length_eq_zero.mp h0
      subst hnil
      simp only [evict_if_needed, if_neg hm1, if_pos hsz, List.length_nil]
      norm_num
    case pos =>
      -- abbreviations (spelled out; `clean` names for readability)
      have hU : (byCreatedAsc (clips.filter (fun c => !c.pinned))).length =
          (clips.filter (fun c => !c.pinned)).length :=
        (pySort_perm _ _).length_eq
      have hUle : (clips.filter (fun c => !c.pinned)).length ≤ clips.length :=
        List.length_filter_le _ _
      have hv1sub : ∀ c ∈ (byCreatedAsc (clips.filter (fun c => !c.pinned))).take
          (max 1 (clips.length * 5 / 100)), c ∈ clips := by
        intro c hc
        exact List.mem_of_mem_filter
          ((pySort_perm _ _).mem_iff.mp ((List.take_sublist _ _).mem hc))
      have hv1unp : ∀ c ∈ (byCreatedAsc (clips.filter (fun c => !c.pinned))).take
          (max 1 (clips.length * 5 / 100)), c.pinned = false := by
        intro c hc
        have := List.of_mem_filter
          ((pySort_perm _ _).mem_iff.mp ((List.take_sublist _ _).mem hc))
        simpa using this
      have hv1nd : ((byCreatedAsc (clips.filter (fun c => !c.pinned))).take
          (max 1 (clips.length * 5 / 100))).Nodup :=
        (List.take_sublist _ _).nodup
          (((pySort_perm _ _).nodup_iff).mpr
            ((List.Nodup.of_map Clip.id hnodup).filter _))
      have hmem1 := delete_victims_mem hnodup hv1sub
      have hlen1 := delete_victims_length hnodup hv1sub hv1nd
      have hv1len : ((byCreatedAsc (clips.filter (fun c => !c.pinned))).take
          (max 1 (clips.length * 5 / 100))).length =
          min (max 1 (clips.length * 5 / 100))
            (clips.filter (fun c => !c.pinned)).length := by
        rw [List.length_take, hU]
      by_cases hfull : ((byCreatedAsc (clips.filter (fun c => !c.pinned))).take
          (max 1 (clips.length * 5 / 100))).length <
          max 1 (clips.length * 5 / 100)
      case neg =>
        have heq : evict_if_needed sizeMb modeRaw clips maxDbMb =
            (((byCreatedAsc (clips.filter (fun c => !c.pinned))).take
                (max 1 (clips.length * 5 / 100))).length,
              clips.filter (fun c =>
                !(((byCreatedAsc (clips.filter (fun c => !c.pinned))).take
                    (max 1 (clips.length * 5 / 100))).map Clip.id).contains
                  c.id)) := by
          simp only [evict_if_needed, if_neg hm1, if_pos hsz, if_pos hlen,
            if_pos hmode, if_neg hfull]
        rw [heq]
        have hbatch : ((byCreatedAsc (clips.filter (fun c => !c.pinned))).take
            (max 1 (clips.length * 5 / 100))).length =
            max 1 (clips.length * 5 / 100) := by
          rw [hv1len] at hfull ⊢
          omega
        refine ⟨?_, ?_, ?_, ?_⟩
        · rw [hbatch]
          rw [hv1len] at hfull
          omega
        · rw [hlen1]
        · intro c hc
          exact List.mem_of_mem_filter hc
        · intro c hc hcp hcdel u hu hup hudel
          have hcv : c ∈ (byCreatedAsc (clips.filter (fun c => !c.pinned))).take
              (max 1 (clips.length * 5 / 100)) := by
            by_contra hcv
            exact hcdel ((hmem1 c hc).mpr hcv)
          rw [hv1unp c hcv] at hcp
          cases hcp
      case pos =>
        have hUlt : (clips.filter (fun c => !c.pinned)).length <
            max 1 (clips.length * 5 / 100) := by
          rw [hv1len] at hfull
          omega
        have htk : (byCreatedAsc (clips.filter (fun c => !c.pinned))).take
            (max 1 (clips.length * 5 / 100)) =
            byCreatedAsc (clips.filter (fun c => !c.pinned)) :=
          List.take_of_length_le (by rw [hU]; omega)
        have heq : evict_if_needed sizeMb modeRaw clips maxDbMb =
            (((byCreatedAsc (clips.filter (fun c => !c.pinned))).take
                (max 1 (clips.length * 5 / 100))).length +
              ((byCreatedAsc (clips.filter (fun c =>
                  !(((byCreatedAsc (clips.filter (fun c => !c.pinned))).take
                      (max 1 (clips.length * 5 / 100))).map Clip.id).contains
                    c.id))).take
                (max 1 (clips.length * 5 / 100) -
                  ((byCreatedAsc (clips.filter (fun c => !c.pinned))).take
                    (max 1 (clips.length * 5 / 100))).length)).length,
              (clips.filter (fun c =>
                !(((byCreatedAsc (clips.filter (fun c => !c.pinned))).take
                    (max 1 (clips.length * 5 / 100))).map Clip.id).contains
                  c.id)).filter (fun c =>
                !(((byCreatedAsc (clips.filter (fun c =>
                    !(((byCreatedAsc (clips.filter (fun c => !c.pinned))).take
                        (max 1 (clips.length * 5 / 100))).map Clip.id).contains
                      c.id))).take
                  (max 1 (clips.length * 5 / 100) -
                    ((byCreatedAsc (clips.filter (fun c => !c.pinned))).take
                      (max 1 (clips.length * 5 / 100))).length)).map Clip.id).contains
                  c.id)) := by
          simp only [evict_if_needed, if_neg hm1, if_pos hsz, if_pos hlen,
            if_pos hmode, if_pos hfull]
        -- state1 facts
        have hs1nd : ((clips.filter (fun c =>
            !(((byCreatedAsc (clips.filter (fun c => !c.pinned))).take
                (max 1 (clips.length * 5 / 100))).map Clip.id).contains
              c.id)).map Clip.id).Nodup :=
          ((List.filter_sublist _).map Clip.id).nodup hnodup
        have hs1sub : ∀ c ∈ clips.filter (fun c =>
            !(((byCreatedAsc (clips.filter (fun c => !c.pinned))).take
                (max 1 (clips.length * 5 / 100))).map Clip.id).contains
              c.id), c ∈ clips := fun c hc => List.mem_of_mem_filter hc
        have hv2sub : ∀ c ∈ (byCreatedAsc (clips.filter (fun c =>
            !(((byCreatedAsc (clips.filter (fun c => !c.pinned))).take
                (max 1 (clips.length * 5 / 100))).map Clip.id).contains
              c.id))).take
            (max 1 (clips.length * 5 / 100) -
              ((byCreatedAsc (clips.filter (fun c => !c.pinned))).take
                (max 1 (clips.length * 5 / 100))).length),
            c ∈ clips.filter (fun c =>
              !(((byCreatedAsc (clips.filter (fun c => !c.pinned))).take
                  (max 1 (clips.length * 5 / 100))).map Clip.id).contains
                c.id) := by
          intro c hc
          exact (pySort_perm _ _).mem_iff.mp ((List.take_sublist _ _).mem hc)
        have hv2nd : ((byCreatedAsc (clips.filter (fun c =>
            !(((byCreatedAsc (clips.filter (fun c => !c.pinned))).take
                (max 1 (clips.length * 5 / 100))).map Clip.id).contains
              c.id))).take
            (max 1 (clips.length * 5 / 100) -
              ((byCreatedAsc (clips.filter (fun c => !c.pinned))).take
                (max 1 (clips.length * 5 / 100))).length)).Nodup :=
          (List.take_sublist _ _).nodup
            (((pySort_perm _ _).nodup_iff).mpr
              ((List.Nodup.of_map Clip.id hnodup).filter _))
        have hlen2 := delete_victims_length hs1nd hv2sub hv2nd
        have hv2len : ((byCreatedAsc (clips.filter (fun c =>
            !(((byCreatedAsc (clips.filter (fun c => !c.pinned))).take
                (max 1 (clips.length * 5 / 100))).map Clip.id).contains
              c.id))).take
            (max 1 (clips.length * 5 / 100) -
              ((byCreatedAsc (clips.filter (fun c => !c.pinned))).take
                (max 1 (clips.length * 5 / 100))).length)).length =
            min (max 1 (clips.length * 5 / 100) -
                ((byCreatedAsc (clips.filter (fun c => !c.pinned))).take
                  (max 1 (clips.length * 5 / 100))).length)
              (clips.filter (fun c =>
                !(((byCreatedAsc (clips.filter (fun c => !c.pinned))).take
                    (max 1 (clips.length * 5 / 100))).map Clip.id).contains
                  c.id)).length := by
          rw [List.length_take, byCreatedAsc_length]
        rw [heq]
        have hv1eq : ((byCreatedAsc (clips.filter (fun c => !c.pinned))).take
            (max 1 (clips.length * 5 / 100))).length =
            (clips.filter (fun c => !c.pinned)).length := by
          rw [htk, hU]
        refine ⟨?_, ?_, ?_, ?_⟩
        · rw [hv2len, hv1eq, hlen1, hv1eq]
          omega
        · dsimp only
          rw [hlen2, hv2len, hlen1]
          omega
        · intro c hc
          exact List.mem_of_mem_filter (List.mem_of_mem_filter hc)
        · intro c hc hcp hcdel u hu hup hudel
          have huunp : u ∈ clips.filter (fun c => !c.pinned) :=
            List.mem_filter.mpr ⟨hu, by rw [hup]; rfl⟩
          have huv1 : u ∈ (byCreatedAsc (clips.filter (fun c => !c.pinned))).take
              (max 1 (clips.length * 5 / 100)) := by
            rw [htk]
            exact (pySort_perm _ _).mem_iff.mpr huunp
          have hus1 : u ∉ clips.filter (fun c =>
              !(((byCreatedAsc (clips.filter (fun c => !c.pinned))).take
                  (max 1 (clips.length * 5 / 100))).map Clip.id).contains
                c.id) := by
            intro hus
            exact ((hmem1 u hu).mp hus) huv1
          exact hus1 (List.mem_of_mem_filter hudel)

/-- Witness for C4: three clips (the oldest pinned) over a 1 MB cap in
tiered mode — the batch of 1 removes the oldest unpinned clip and the
pinned one survives. -/
theorem evict_if_needed_tiered_spec_witness :
    (evict_if_needed 2 "tiered"
        [⟨1, 1, "a", "x", "h1", true⟩, ⟨2, 2, "a", "y", "h2", false⟩,
          ⟨3, 3, "a", "z", "h3", false⟩] 1).1 = 1 ∧
    (evict_if_needed 2 "tiered"
        [⟨1, 1, "a", "x", "h1", true⟩, ⟨2, 2, "a", "y", "h2", false⟩,
          ⟨3, 3, "a", "z", "h3", false⟩] 1).2.length = 3 - 1 :=
  have h := evict_if_needed_tiered_spec 2 "tiered"
    [⟨1, 1, "a", "x", "h1", true⟩, ⟨2, 2, "a", "y", "h2", false⟩,
      ⟨3, 3, "a", "z", "h3", false⟩] 1 (by decide) (by decide)
  have hm := h.2 (by decide) (by norm_num)
  ⟨by rw [hm.1]; decide, by rw [hm.2.1, hm.1]; decide⟩

/-! ## Lemmas about the hash embedder -/

theorem bump_length (v : List ℚ) (i : Nat) : (bump v i).length = v.length := by
  simp [bump]

theorem foldl_bump_length (pyHash : String → Int) (dim : Nat)
    (tokens : List String) :
    ∀ v : List ℚ,
      (tokens.foldl (fun v tok => bump v ((pyHash tok % (dim : Int)).toNat)) v).length =
        v.length := by
  induction tokens with
  | nil => intro v; rfl
  | cons t ts ih =>
    intro v
    rw [List.foldl_cons, ih, bump_length]

theorem hashAccum_length (pyHash : String → Int) (dim : Nat)
    (tokens : List String) : (hashAccum pyHash dim tokens).length = dim := by
  rw [hashAccum, foldl_bump_length, List.length_replicate]

theorem bump_getD_self (v : List ℚ) (i : Nat) (hi : i < v.length) :
    (bump v i).getD i 0 = v.getD i 0 + 1 := by
  rw [bump, List.getD_eq_getElem?_getD, List.getElem?_set_self hi,
    Option.getD_some]

theorem bump_getD_ne (v : List ℚ) (i j : Nat) (hij : i ≠ j) :
    (bump v i).getD j 0 = v.getD j 0 := by
  rw [bump, List.getD_eq_getElem?_getD, List.getElem?_set_ne hij,
    ← List.getD_eq_getElem?_getD]

theorem bump_getD_le (v : List ℚ) (i j : Nat) :
    v.getD j 0 ≤ (bump v i).getD j 0 := by
  by_cases hij : i = j
  · subst hij
    by_cases hi : i < v.length
    · rw [bump_getD_self v i hi]
      linarith
    · rw [bump, List.set_eq_of_length_le (le_of_not_lt hi)]
  · rw [bump_getD_ne v i j hij]

theorem foldl_bump_getD_le (pyHash : String → Int) (dim : Nat)
    (tokens : List String) :
    ∀ (v : List ℚ) (j : Nat),
      v.getD j 0 ≤
        (tokens.foldl (fun v tok => bump v ((pyHash tok % (dim : Int)).toNat)) v).getD
          j 0 := by
  induction tokens with
  | nil => intro v j; exact le_refl _
  | cons t ts ih =>
    intro v j
    rw [List.foldl_cons]
    exact le_trans (bump_getD_le v _ j) (ih _ j)

theorem getD_replicate_zero (n j : Nat) :
    (List.replicate n (0 : ℚ)).getD j 0 = 0 := by
  rw [List.getD_eq_getElem?_getD]
  rcases lt_or_le j n with h | h
  · rw [List.getElem?_replicate, if_pos h]
    rfl
  · rw [List.getElem?_eq_none (by simpa using h)]
    rfl

theorem hashAccum_nonneg (pyHash : String → Int) (dim : Nat)
    (tokens : List String) (j : Nat) :
    0 ≤ (hashAccum pyHash dim tokens).getD j 0 := by
  have h := foldl_bump_getD_le pyHash dim tokens (List.replicate dim 0) j
  rw [getD_replicate_zero] at h
  exact h

/-- The bucket index of a token is in range. -/
theorem bucket_lt (pyHash : String → Int) (dim : Nat) (hdim : 0 < dim)
    (t : String) : (pyHash t % (dim : Int)).toNat < dim := by
  have hnz : (dim : Int) ≠ 0 := by
    simp only [ne_eq, Int.natCast_eq_zero]
    omega
  have h1 : 0 ≤ pyHash t % (dim : Int) := Int.emod_nonneg _ hnz
  have h2 : pyHash t % (dim : Int) < (dim : Int) :=
    Int.emod_lt_of_pos _ (by exact_mod_cast hdim)
  exact (Int.toNat_lt h1).mpr h2

/-- Any token's bucket holds a strictly positive count. -/
theorem hashAccum_bucket_pos (pyHash : String → Int) (dim : Nat)
    (hdim : 0 < dim) (t : String) (ts : List String) :
    0 < (hashAccum pyHash dim (t :: ts)).getD ((pyHash t % (dim : Int)).toNat) 0 := by
  rw [hashAccum, List.foldl_cons]
  have hlt : (pyHash t % (dim : Int)).toNat < dim := bucket_lt pyHash dim hdim t
  have hstart : (bump (List.replicate dim 0) ((pyHash t % (dim : Int)).toNat)).getD
      ((pyHash t % (dim : Int)).toNat) 0 = 1 := by
    rw [bump_getD_self _ _ (by rw [List.length_replicate]; exact hlt),
      getD_replicate_zero]
    norm_num
  have hmono := foldl_bump_getD_le pyHash dim ts
    (bump (List.replicate dim 0) ((pyHash t % (dim : Int)).toNat))
    ((pyHash t % (dim : Int)).toNat)
  rw [hstart] at hmono
  linarith

theorem sumSq_nonneg (v : List ℝ) : 0 ≤ sumSq v := by
  apply List.sum_nonneg
  intro x hx
  rcases List.mem_map.mp hx with ⟨a, _, rfl⟩
  exact mul_self_nonneg a

theorem getD_sq_le_sumSq (v : List ℝ) (j : Nat) (hj : j < v.length) :
    v.getD j 0 * v.getD j 0 ≤ sumSq v := by
  have hget : v.getD j 0 = v[j] := by
    rw [List.getD_eq_getElem?_getD, List.getElem?_eq_getElem hj]
    rfl
  rw [hget]
  apply List.single_le_sum
  · intro x hx
    rcases List.mem_map.mp hx with ⟨a, _, rfl⟩
    exact mul_self_nonneg a
  · exact List.mem_map.mpr ⟨v[j], List.getElem_mem hj, rfl⟩

theorem sumSq_map_div (v : List ℝ) (c : ℝ) :
    sumSq (v.map (fun x => x / c)) = sumSq v / (c * c) := by
  induction v with
  | nil => simp [sumSq]
  | cons a as ih =>
    simp only [sumSq, List.map_cons, List.sum_cons] at *
    rw [ih]
    rw [div_mul_div_comm, add_div]

theorem getD_map_ratCast (l : List ℚ) (j : Nat) :
    (l.map (fun q : ℚ => (q : ℝ))).getD j 0 = ((l.getD j 0 : ℚ) : ℝ) := by
  have h := @List.getD_map ℚ ℝ l 0 j (fun q : ℚ => (q : ℝ))
  rw [Rat.cast_zero] at h
  exact h

theorem getD_map_div (l : List ℝ) (c : ℝ) (j : Nat) :
    (l.map (fun x => x / c)).getD j 0 = l.getD j 0 / c := by
  have h := @List.getD_map ℝ ℝ l 0 j (fun x => x / c)
  rw [zero_div] at h
  exact h

/-- In the non-empty-token case the accumulator has positive energy, hence
a positive norm. -/
theorem hash_embed_sumSq_pos (pyHash : String → Int) (text : String)
    (htok : tokenize text ≠ []) :
    0 < sumSq ((hashAccum pyHash EMBED_DIM (tokenize text)).map
      (fun q : ℚ => (q : ℝ))) := by
  rcases List.exists_cons_of_ne_nil htok with ⟨t, ts, hts⟩
  have hdim : 0 < EMBED_DIM := by norm_num [EMBED_DIM]
  have hpos : 0 < (hashAccum pyHash EMBED_DIM (tokenize text)).getD
      ((pyHash t % (EMBED_DIM : Int)).toNat) 0 := by
    rw [hts]
    exact hashAccum_bucket_pos pyHash EMBED_DIM hdim t ts
  have hj : (pyHash t % (EMBED_DIM : Int)).toNat <
      ((hashAccum pyHash EMBED_DIM (tokenize text)).map (fun q : ℚ => (q : ℝ))).length := by
    rw [List.length_map, hashAccum_length]
    exact bucket_lt pyHash EMBED_DIM hdim t
  have hgd : ((hashAccum pyHash EMBED_DIM (tokenize text)).map
      (fun q : ℚ => (q : ℝ))).getD ((pyHash t % (EMBED_DIM : Int)).toNat) 0 =
      (((hashAccum pyHash EMBED_DIM (tokenize text)).getD
        ((pyHash t % (EMBED_DIM : Int)).toNat) 0 : ℚ) : ℝ) :=
    getD_map_ratCast _ _
  have hsq := getD_sq_le_sumSq _ _ hj
  rw [hgd] at hsq
  have hposR : (0 : ℝ) <
      (((hashAccum pyHash EMBED_DIM (tokenize text)).getD
        ((pyHash t % (EMBED_DIM : Int)).toNat) 0 : ℚ) : ℝ) := by
    exact_mod_cast hpos
  calc (0 : ℝ) < _ * _ := mul_pos hposR hposR
    _ ≤ _ := hsq

/-! ## C5: hash embedding shape and normalisation -/

/-- C5.  `hash_embed` always returns a vector of length 128
(`EMBED_DIM`); with no alphanumeric-or-underscore token the result is the
all-zero vector (no error, no NaN — the zero norm is special-cased), and
with at least one token the result has L2 norm exactly 1 (floats idealised
as reals). -/
theorem hash_embed_spec (pyHash : String → Int) (text : String) :
    (hash_embed pyHash text).length = 128 ∧
    (tokenize text = [] → hash_embed pyHash text = List.replicate 128 (0 : ℝ)) ∧
    (tokenize text ≠ [] → Real.sqrt (sumSq (hash_embed pyHash text)) = 1) := by
  refine ⟨?_, ?_, ?_⟩
  · by_cases ht : tokenize text = []
    · simp only [hash_embed, if_pos ht, List.length_replicate]
      rfl
    · simp only [hash_embed, if_neg ht]
      split <;> simp [hashAccum_length, EMBED_DIM]
  · intro ht
    simp only [hash_embed, if_pos ht]
    rfl
  · intro ht
    have hpos := hash_embed_sumSq_pos pyHash text ht
    have hnormpos : 0 < Real.sqrt (sumSq ((hashAccum pyHash EMBED_DIM
        (tokenize text)).map (fun q : ℚ => (q : ℝ)))) := Real.sqrt_pos.mpr hpos
    have heq : hash_embed pyHash text =
        ((hashAccum pyHash EMBED_DIM (tokenize text)).map
          (fun q : ℚ => (q : ℝ))).map (fun x => x /
            Real.sqrt (sumSq ((hashAccum pyHash EMBED_DIM
              (tokenize text)).map (fun q : ℚ => (q : ℝ))))) := by
      simp only [hash_embed, if_neg ht, if_pos hnormpos]
    rw [heq, sumSq_map_div, Real.mul_self_sqrt (sumSq_nonneg _),
      div_self (ne_of_gt hpos), Real.sqrt_one]

/-- Witness for C5 at a concrete input: `"hi there"` tokenizes non-empty
and its hash embedding is a unit vector. -/
theorem hash_embed_spec_witness :
    tokenize "hi there" ≠ [] ∧
    Real.sqrt (sumSq (hash_embed (fun _ => 0) "hi there")) = 1 :=
  ⟨by decide, (hash_embed_spec (fun _ => 0) "hi there").2.2 (by decide)⟩

/-! ## C6: the "stable hash" is Python's per-process salted `hash` -/

/-- C6 (code bug).  The bucket for each token is chosen by Python's builtin
`hash`, which is salted per process (`PYTHONHASHSEED`), modelled here as the
`pyHash` parameter.  Two different process salts — two instantiations of the
parameter — give different vectors for the same text, so the embedding is
not the stable, fully deterministic function the spec describes: vectors
persisted by one process are not comparable with query vectors embedded in
a later process. -/
theorem hash_embed_process_dependent :
    hash_embed (fun _ => 0) "hello world" ≠
      hash_embed (fun _ => 1) "hello world" := by
  have htok : tokenize "hello world" ≠ [] := by decide
  have htoks : tokenize "hello world" = ["hello", "world"] := by decide
  -- accumulator entries at bucket 0 (both tokens land in bucket 0 resp. 1)
  have hi0 : ((0 : Int) % (EMBED_DIM : Int)).toNat = 0 := by decide
  have hi1 : ((1 : Int) % (EMBED_DIM : Int)).toNat = 1 := by decide
  have hacc0 : (hashAccum (fun _ => 0) EMBED_DIM ["hello", "world"]).getD 0 0 = 2 := by
    rw [hashAccum, List.foldl_cons, List.foldl_cons, List.foldl_nil, hi0]
    rw [bump_getD_self _ 0 (by rw [bump_length, List.length_replicate]; norm_num [EMBED_DIM]),
      bump_getD_self _ 0 (by rw [List.length_replicate]; norm_num [EMBED_DIM]),
      getD_replicate_zero]
    norm_num
  have hacc1 : (hashAccum (fun _ => 1) EMBED_DIM ["hello", "world"]).getD 0 0 = 0 := by
    rw [hashAccum, List.foldl_cons, List.foldl_cons, List.foldl_nil, hi1]
    rw [bump_getD_ne _ 1 0 (by norm_num), bump_getD_ne _ 1 0 (by norm_num),
      getD_replicate_zero]
  -- the two embeddings at component 0
  have hpos0 := hash_embed_sumSq_pos (fun _ => 0) "hello world" htok
  have hn0 : 0 < Real.sqrt (sumSq ((hashAccum (fun _ => 0) EMBED_DIM
      (tokenize "hello world")).map (fun q : ℚ => (q : ℝ)))) :=
    Real.sqrt_pos.mpr hpos0
  have hpos1 := hash_embed_sumSq_pos (fun _ => 1) "hello world" htok
  have hn1 : 0 < Real.sqrt (sumSq ((hashAccum (fun _ => 1) EMBED_DIM
      (tokenize "hello world")).map (fun q : ℚ => (q : ℝ)))) :=
    Real.sqrt_pos.mpr hpos1
  have he0 : hash_embed (fun _ => 0) "hello world" =
      ((hashAccum (fun _ => 0) EMBED_DIM (tokenize "hello world")).map
        (fun q : ℚ => (q : ℝ))).map (fun x => x /
          Real.sqrt (sumSq ((hashAccum (fun _ => 0) EMBED_DIM
            (tokenize "hello world")).map (fun q : ℚ => (q : ℝ))))) := by
    simp only [hash_embed, if_neg htok, if_pos hn0]
  have he1 : hash_embed (fun _ => 1) "hello world" =
      ((hashAccum (fun _ => 1) EMBED_DIM (tokenize "hello world")).map
        (fun q : ℚ => (q : ℝ))).map (fun x => x /
          Real.sqrt (sumSq ((hashAccum (fun _ => 1) EMBED_DIM
            (tokenize "hello world")).map (fun q : ℚ => (q : ℝ))))) := by
    simp only [hash_embed, if_neg htok, if_pos hn1]
  have hg0 : 0 < (hash_embed (fun _ => 0) "hello world").getD 0 0 := by
    rw [he0, getD_map_div, getD_map_ratCast, htoks, hacc0]
    have h2 : ((2 : ℚ) : ℝ) = 2 := by norm_num
    rw [h2]
    exact div_pos (by norm_num) hn0
  have hg1 : (hash_embed (fun _ => 1) "hello world").getD 0 0 = 0 := by
    rw [he1, getD_map_div, getD_map_ratCast, htoks, hacc1]
    norm_num
  intro heq
  rw [heq, hg1] at hg0
  exact lt_irrefl 0 hg0

/-! ## C9: typed settings writes -/

/-- `List.contains` on strings agrees with membership. -/
theorem contains_str_iff (l : List String) (s : String) :
    l.contains s = true ↔ s ∈ l := by
  simp

/-- Upserted values are read back: the settings write boundary stores what
it acknowledged. -/
theorem get_set_setting (st : Settings) (key value d : String) :
    get_setting (set_setting st key value) key d = value := by
  by_cases h : (st.map Prod.fst).contains key
  · rw [set_setting, if_pos h, get_setting, List.find?_map]
    have hpf : ((fun kv : String × String => kv.1 == key) ∘
        (fun kv : String × String => if kv.1 = key then (key, value) else kv)) =
        fun kv : String × String => kv.1 == key := by
      funext kv
      by_cases hk : kv.1 = key
      · simp [hk]
      · simp [hk]
    rw [hpf]
    have hex : ∃ kv ∈ st, (fun kv : String × String => kv.1 == key) kv = true := by
      rcases List.mem_map.mp ((contains_str_iff _ _).mp h) with ⟨kv, hkv, hfst⟩
      exact ⟨kv, hkv, by simp [hfst]⟩
    have hsome : (st.find? (fun kv : String × String => kv.1 == key)).isSome :=
      List.find?_isSome.mpr hex
    rcases Option.isSome_iff_exists.mp hsome with ⟨kv₀, hkv₀⟩
    have hp := List.find?_some hkv₀
    simp only [beq_iff_eq] at hp
    rw [hkv₀]
    simp [hp]
  · rw [set_setting, if_neg h, get_setting, List.find?_append]
    have hnone : st.find? (fun kv : String × String => kv.1 == key) = none := by
      rw [List.find?_eq_none]
      intro kv hkv hbeq
      simp only [beq_iff_eq] at hbeq
      exact h ((contains_str_iff _ _).mpr (List.mem_map.mpr ⟨kv, hkv, hbeq⟩))
    rw [hnone]
    simp

/-- C9.  `set_setting_typed` rejects an unknown key, a non-boolean string
for a bool key, an unparsable JSON string for a json key, and a parsed JSON
value that is neither list nor object — each with a descriptive reason and
with the settings table left untouched; valid values are acknowledged with
`ok = true` and stored (readable back through `get_setting`). -/
theorem set_setting_typed_spec (jloads : String → Except String JVal)
    (jdumps : JVal → String) (st : Settings) (key : String) (value : PyVal)
    (d : String) :
    (settingsSpec key = none →
      set_setting_typed jloads jdumps st key value =
        ((false, "unknown key '" ++ key ++ "'"), st)) ∧
    (settingsSpec key = some .bool → ∀ s : String, value = .str s →
      parse_bool_value s = none →
      set_setting_typed jloads jdumps st key value =
        ((false, "value must be true/false or 1/0"), st)) ∧
    (settingsSpec key = some .json → ∀ s e, value = .str s →
      jloads s = .error e →
      set_setting_typed jloads jdumps st key value =
        ((false, "invalid JSON: " ++ e), st)) ∧
    (settingsSpec key = some .json → ∀ s j, value = .str s →
      jloads s = .ok j → j.isListOrDict = false →
      set_setting_typed jloads jdumps st key value =
        ((false, "value must be a JSON list or object"), st)) ∧
    (settingsSpec key = some .bool → ∀ b : Bool, value = .bool b →
      (set_setting_typed jloads jdumps st key value).1.1 = true ∧
      get_setting (set_setting_typed jloads jdumps st key value).2 key d =
        (if b then "1" else "0")) ∧
    (settingsSpec key = some .bool → ∀ (s : String) (b : Bool),
      value = .str s → parse_bool_value s = some b →
      (set_setting_typed jloads jdumps st key value).1.1 = true ∧
      get_setting (set_setting_typed jloads jdumps st key value).2 key d =
        (if b then "1" else "0")) ∧
    (settingsSpec key = some .json → ∀ s j, value = .str s →
      jloads s = .ok j → j.isListOrDict = true →
      (set_setting_typed jloads jdumps st key value).1.1 = true ∧
      get_setting (set_setting_typed jloads jdumps st key value).2 key d =
        jdumps j) := by
  refine ⟨?_, ?_, ?_, ?_, ?_, ?_, ?_⟩
  · intro h
    simp only [set_setting_typed, h]
  · intro h s hv hp
    subst hv
    simp only [set_setting_typed, h, PyVal.toStr, hp]
  · intro h s e hv hj
    subst hv
    simp only [set_setting_typed, h, hj]
  · intro h s j hv hj hnot
    subst hv
    simp only [set_setting_typed, h, hj, hnot, Bool.false_eq_true, if_false]
  · intro h b hv
    subst hv
    simp only [set_setting_typed, h, set_bool_setting]
    exact ⟨trivial, get_set_setting st key _ d⟩
  · intro h s b hv hp
    subst hv
    simp only [set_setting_typed, h, PyVal.toStr, hp, set_bool_setting]
    exact ⟨trivial, get_set_setting st key _ d⟩
  · intro h s j hv hj hyes
    subst hv
    simp only [set_setting_typed, h, hj, hyes, if_true]
    exact ⟨trivial, get_set_setting st key _ d⟩

/-- Witness for C9: the bool key `telemetry_enabled` rejects `"maybe"`
leaving an empty table untouched, and accepts `"yes"` storing `"1"`. -/
theorem set_setting_typed_spec_witness :
    set_setting_typed (fun _ => .error "e") (fun _ => "") []
      "telemetry_enabled" (.str "maybe") =
      ((false, "value must be true/false or 1/0"), []) ∧
    (set_setting_typed (fun _ => .error "e") (fun _ => "") []
      "telemetry_enabled" (.str "yes")).1.1 = true ∧
    get_setting (set_setting_typed (fun _ => .error "e") (fun _ => "") []
      "telemetry_enabled" (.str "yes")).2 "telemetry_enabled" "?" = "1" :=
  have h1 := (set_setting_typed_spec (fun _ => .error "e") (fun _ => "") []
    "telemetry_enabled" (.str "maybe") "?").2.1 (by decide) "maybe" rfl (by decide)
  have h2 := (set_setting_typed_spec (fun _ => .error "e") (fun _ => "") []
    "telemetry_enabled" (.str "yes") "?").2.2.2.2.2.1 (by decide) "yes" true rfl
    (by decide)
  ⟨h1, h2.1, h2.2⟩

/-! ## C10: tag assignment -/

theorem pyLower_empty_iff (s : String) : pyLower s = "" ↔ s = "" := by
  constructor
  · intro h
    have hd : s.data.map pyLowerChar = [] := congrArg String.data h
    have hnil : s.data = [] := List.map_eq_nil_iff.mp hd
    cases s
    simp only [String.data] at hnil
    rw [hnil]
  · intro h
    rw [h]
    rfl

/-- `List.contains` on clip/tag link pairs agrees with membership. -/
theorem contains_pair_iff (l : List (Nat × Nat)) (p : Nat × Nat) :
    l.contains p = true ↔ p ∈ l := by
  simp

/-- Per-tag cap eviction never touches the `tags` table. -/
theorem evict_tag_cap_tags (s : Store) (t : String) (c : Int) :
    ((evict_tag_cap s t c).2).tags = s.tags := by
  by_cases h1 : c ≤ 0 ∨ t = ""
  · rw [evict_tag_cap, if_pos h1]
  · by_cases h2 : (tagRows s t).length ≤ c.toNat
    · simp only [evict_tag_cap, if_neg h1, if_pos h2]
    · simp only [evict_tag_cap, if_neg h1, if_neg h2, deleteClips]

/-- C10 (amended: the no-op guarantee of a re-assign additionally needs the
`cap_by_tag` map not to bind the tag below its current clip count, since
`assign_tag` runs `evict_tag_cap` after the link insert).  An empty or
whitespace-only tag raises `ValueError("empty tag")` — unlike `insert`'s
silent empty-content no-op; a non-empty tag is stored trimmed and
lowercased; re-assigning an existing tag to the same clip returns `True`
and, when no cap entry forces an eviction, leaves the whole store (links
included) unchanged. -/
theorem assign_tag_spec (jloads : String → Except String JVal) (st : Store)
    (clipId : Nat) (tag : String) :
    (pyStrip tag = "" → assign_tag jloads st clipId tag = .error "empty tag") ∧
    (pyStrip tag ≠ "" →
      st.clips.any (fun c => c.id == clipId) = true →
      (st.tags.find? (fun tg => tg.2 == pyLower (pyStrip tag)) = none →
        ∃ st' : Store, assign_tag jloads st clipId tag = .ok (true, st') ∧
          (nextTagId st.tags, pyLower (pyStrip tag)) ∈ st'.tags) ∧
      (∀ tg, st.tags.find? (fun tg => tg.2 == pyLower (pyStrip tag)) = some tg →
        (clipId, tg.1) ∈ st.clipTags →
        ((get_cap_map jloads st.settings "cap_by_tag").lookup
            (pyLower (pyStrip tag)) = none →
          assign_tag jloads st clipId tag = .ok (true, st)) ∧
        (∀ cap, (get_cap_map jloads st.settings "cap_by_tag").lookup
            (pyLower (pyStrip tag)) = some cap →
          cap ≤ 0 ∨ (tagRows st (pyLower (pyStrip tag))).length ≤ cap.toNat →
          assign_tag jloads st clipId tag = .ok (true, st)))) := by
  constructor
  · intro h
    have h0 : pyLower (pyStrip tag) = "" := by rw [h]; rfl
    simp [assign_tag, get_or_create_tag, h0]
  · intro hne hclip
    have hnorm : pyLower (pyStrip tag) ≠ "" :=
      fun h => hne ((pyLower_empty_iff _).mp h)
    constructor
    · intro hfind
      have hg : get_or_create_tag st tag = .ok (nextTagId st.tags,
          { st with tags := st.tags ++ [(nextTagId st.tags, pyLower (pyStrip tag))] }) := by
        simp only [get_or_create_tag, if_neg hnorm, hfind]
      simp only [assign_tag, hg, hclip, Bool.not_true, Bool.false_eq_true,
        if_false]
      by_cases hct : st.clipTags.contains (clipId, nextTagId st.tags) = true
      · rw [if_pos hct]
        cases hlk : List.lookup (pyLower (pyStrip tag))
            (get_cap_map jloads st.settings "cap_by_tag") with
        | none => exact ⟨_, rfl, by simp⟩
        | some cap => exact ⟨_, rfl, by rw [evict_tag_cap_tags]; simp⟩
      · rw [if_neg hct]
        cases hlk : List.lookup (pyLower (pyStrip tag))
            (get_cap_map jloads st.settings "cap_by_tag") with
        | none => exact ⟨_, rfl, by simp⟩
        | some cap => exact ⟨_, rfl, by rw [evict_tag_cap_tags]; simp⟩
    · intro tg hfind hlink
      have hg : get_or_create_tag st tag = .ok (tg.1, st) := by
        simp only [get_or_create_tag, if_neg hnorm, hfind]
      have hct : st.clipTags.contains (clipId, tg.1) = true :=
        (contains_pair_iff _ _).mpr hlink
      constructor
      · intro hlk
        simp only [assign_tag, hg, hclip, Bool.not_true, Bool.false_eq_true,
          if_false, hct, if_true, hlk]
      · intro cap hlk hbenign
        have hev : evict_tag_cap st (pyLower (pyStrip tag)) cap = (0, st) := by
          rcases hbenign with h | h
          · rw [evict_tag_cap, if_pos (Or.inl h)]
          · by_cases hc0 : cap ≤ 0 ∨ pyLower (pyStrip tag) = ""
            · rw [evict_tag_cap, if_pos hc0]
            · rw [evict_tag_cap, if_neg hc0, if_pos h]
        simp only [assign_tag, hg, hclip, Bool.not_true, Bool.false_eq_true,
          if_false, hct, if_true, hlk, hev]

/-- Witness for C10 (amended): the empty tag `"  "` raises; re-assigning
the existing tag `"t"` to clip 1 with no tag caps configured returns `True`
with the store untouched. -/
theorem assign_tag_spec_witness :
    assign_tag (fun _ => .error "e")
      ⟨[⟨1, 1, "a", "x", "h1", false⟩], [(1, "t")], [(1, 1)], []⟩ 1 "  " =
      .error "empty tag" ∧
    assign_tag (fun _ => .error "e")
      ⟨[⟨1, 1, "a", "x", "h1", false⟩], [(1, "t")], [(1, 1)], []⟩ 1 " T " =
      .ok (true, ⟨[⟨1, 1, "a", "x", "h1", false⟩], [(1, "t")], [(1, 1)], []⟩) :=
  have h := assign_tag_spec (fun _ => .error "e")
    ⟨[⟨1, 1, "a", "x", "h1", false⟩], [(1, "t")], [(1, 1)], []⟩ 1 " T "
  have h2 := (h.2 (by decide) (by decide)).2 (1, "t") (by decide) (by decide)
  ⟨(assign_tag_spec (fun _ => .error "e")
      ⟨[⟨1, 1, "a", "x", "h1", false⟩], [(1, "t")], [(1, 1)], []⟩ 1 "  ").1 (by decide),
    h2.1 (by decide)⟩

/-- Counterexample to C10 as stated.  With two clips carrying tag `"t"` and
the setting `cap_by_tag = \x7b"t": 1\x7d` (a cap map the user can store at any
time through the settings surface), re-assigning `"t"` to clip 2 returns
`True` but triggers `evict_tag_cap`, deleting clip 1 and its link: the tag
links do NOT stay unchanged.  `json.loads` is instantiated with a function
returning the object `\x7b"t": 1\x7d` for exactly the stored string. -/
theorem assign_tag_reassign_cex :
    assign_tag
      (fun s => if s = "\x7b\x22t\x22: 1\x7d" then .ok (.obj [("t", .num 1)])
        else .error "bad")
      ⟨[⟨1, 1, "a", "x", "h1", false⟩, ⟨2, 2, "a", "y", "h2", false⟩],
        [(1, "t")], [(1, 1), (2, 1)], [("cap_by_tag", "\x7b\x22t\x22: 1\x7d")]⟩
      2 "t" =
      .ok (true,
        ⟨[⟨2, 2, "a", "y", "h2", false⟩], [(1, "t")], [(2, 1)],
          [("cap_by_tag", "\x7b\x22t\x22: 1\x7d")]⟩) ∧
    ([(2, 1)] : List (Nat × Nat)) ≠ [(1, 1), (2, 1)] :=
  ⟨rfl, by decide⟩

end MFM
